import Mathlib

set_option autoImplicit false

/-!
Verification of the go-usb library core against its specification.

The Go sources are shallowly embedded: bytes are `Nat` values below 256,
Go slices are `List`s, fallible functions return `Except`, stateful methods
are functions from an explicit state (plus the results of the kernel calls
they make) to a new state, and the per-handle URB-reaper concurrency is a
small-step transition relation over the handle state.
-/

namespace GoUsb

/-! ## Descriptor type codes (src/device.go, src/usb.go) -/

def USB_DT_INTERFACE : Nat := 0x04

def USB_DT_ENDPOINT : Nat := 0x05

def USB_DT_INTERFACE_ASSOCIATION : Nat := 0x0b

def USB_DT_SS_ENDPOINT_COMPANION : Nat := 0x30

/-! ## Descriptor model (src/config.go)

Field names follow the Go structs.  Go `uint8`/`uint16` fields are `Nat`
(the parser only ever stores bytes read from the input, or a 16-bit
little-endian combination of two of them). -/

structure SuperSpeedEndpointCompanionDescriptor where
  Length : Nat
  DescriptorType : Nat
  MaxBurst : Nat
  Attributes : Nat
  BytesPerInterval : Nat
deriving DecidableEq

structure Endpoint where
  Length : Nat
  DescriptorType : Nat
  EndpointAddr : Nat
  Attributes : Nat
  MaxPacketSize : Nat
  Interval : Nat
  SSCompanion : Option SuperSpeedEndpointCompanionDescriptor
  Extra : List Nat
deriving DecidableEq

structure InterfaceAltSetting where
  Length : Nat
  DescriptorType : Nat
  InterfaceNumber : Nat
  AlternateSetting : Nat
  NumEndpoints : Nat
  InterfaceClass : Nat
  InterfaceSubClass : Nat
  InterfaceProtocol : Nat
  InterfaceIndex : Nat
  Endpoints : List Endpoint
  Extra : List Nat
deriving DecidableEq

structure Interface where
  AltSettings : List InterfaceAltSetting
deriving DecidableEq

structure ConfigDescriptor where
  Length : Nat
  DescriptorType : Nat
  TotalLength : Nat
  NumInterfaces : Nat
  ConfigurationValue : Nat
  ConfigurationIndex : Nat
  Attributes : Nat
  MaxPower : Nat
  Interfaces : List Interface
  Extra : List Nat
deriving DecidableEq

/-- Errors returned by `ConfigDescriptor.Unmarshal` (the Go code produces them
with `fmt.Errorf`; only their presence and branch of origin matter). -/
inductive ParseErr where
  | configTooShort (n : Nat)
  | ifaceTooShort (n : Nat)
  | epTooShort (n : Nat)
deriving DecidableEq

/-- The mutable locals of the `Unmarshal` walk: the `interfaceMap`
(an association list keyed by interface number, in first-insertion order),
`currentInterface`, `currentEndpoints`, `extraBuffer`, and the `c.Extra`
accumulated so far. -/
structure LoopState where
  imap : List (Nat × Interface)
  cur : Option InterfaceAltSetting
  curEndpoints : List Endpoint
  extraBuf : List Nat
  cExtra : List Nat
deriving DecidableEq

/-- Go: `interfaceMap[n]` creation-if-absent followed by
`append(interfaceMap[n].AltSettings, a)`.  A missing key is appended at the
end of the association list; an existing key has the alt setting appended to
its entry. -/
def addAlt (m : List (Nat × Interface)) (n : Nat) (a : InterfaceAltSetting) :
    List (Nat × Interface) :=
  match m with
  | [] => [(n, ⟨[a]⟩)]
  | (k, i) :: rest =>
    if k = n then (k, ⟨i.AltSettings ++ [a]⟩) :: rest
    else (k, i) :: addAlt rest n a

def lookupIface (m : List (Nat × Interface)) (n : Nat) : Option Interface :=
  match m with
  | [] => none
  | (k, i) :: rest => if k = n then some i else lookupIface rest n

/-- Go: the "save previous interface if exists" block that runs at each new
interface descriptor and once more after the walk: fill in the pending
alt setting's `Endpoints`/`Extra`, push it into the interface map, and clear
`extraBuffer`/`currentEndpoints`. -/
def flushST (st : LoopState) : LoopState :=
  match st.cur with
  | none => st
  | some c =>
    { st with
      imap := addAlt st.imap c.InterfaceNumber
        { c with Endpoints := st.curEndpoints, Extra := st.extraBuf }
      curEndpoints := []
      extraBuf := [] }

/-- Result of one iteration of the walk: leave the loop with a result, or
consume `consumed` bytes and continue with an updated state. -/
inductive StepRes where
  | done (r : Except ParseErr LoopState)
  | next (consumed : Nat) (st : LoopState)

/-- One iteration of the `for pos < len(data)` walk of
`ConfigDescriptor.Unmarshal` (src/config.go lines 100-211), translated
positionally: `rest` is `data[pos:]`, so `data[pos+k]` is `rest.getD k d`,
`pos += length` becomes consuming `length` bytes, `pos+x > len(data)` is
`rest.length < x`, and the slice `data[pos:pos+length]` is
`rest.take length`.

Out-of-range reads return the instrumentation default `d`; the proof that
the result does not depend on `d` is the no-out-of-bounds property. -/
def loopStep (d : Nat) (rest : List Nat) (st : LoopState) : StepRes :=
  -- `pos < len(data)` loop exit and the `pos+2 > len(data)` break
  if rest.length < 2 then .done (.ok st)
  else
    let length := rest.getD 0 d
    let descType := rest.getD 1 d
    -- `length == 0 || pos+length > len(data)` break
    if length = 0 ∨ rest.length < length then .done (.ok st)
    else if descType = USB_DT_INTERFACE then
      let st1 := flushST st
      if length < 9 then .done (.error (.ifaceTooShort length))
      else
        let iface : InterfaceAltSetting :=
          { Length := rest.getD 0 d
            DescriptorType := rest.getD 1 d
            InterfaceNumber := rest.getD 2 d
            AlternateSetting := rest.getD 3 d
            NumEndpoints := rest.getD 4 d
            InterfaceClass := rest.getD 5 d
            InterfaceSubClass := rest.getD 6 d
            InterfaceProtocol := rest.getD 7 d
            InterfaceIndex := rest.getD 8 d
            Endpoints := []
            Extra := [] }
        .next length { st1 with cur := some iface, curEndpoints := [] }
    else if descType = USB_DT_ENDPOINT then
      match st.cur with
      | none =>
        -- endpoint without interface: raw bytes into the config's Extra
        .next length { st with cExtra := st.cExtra ++ rest.take length }
      | some _ =>
        if length < 7 then .done (.error (.epTooShort length))
        else
          let endpoint : Endpoint :=
            { Length := rest.getD 0 d
              DescriptorType := rest.getD 1 d
              EndpointAddr := rest.getD 2 d
              Attributes := rest.getD 3 d
              MaxPacketSize := rest.getD 4 d + 256 * rest.getD 5 d
              Interval := rest.getD 6 d
              SSCompanion := none
              Extra := [] }
          -- peek: `nextPos+2 <= len(data) && data[nextPos+1] == SS companion`
          if length + 2 ≤ rest.length ∧
              rest.getD (length + 1) d = USB_DT_SS_ENDPOINT_COMPANION then
            let companionLen := rest.getD length d
            if length + companionLen ≤ rest.length ∧ 6 ≤ companionLen then
              let endpoint :=
                { endpoint with
                  SSCompanion := some
                    { Length := rest.getD length d
                      DescriptorType := rest.getD (length + 1) d
                      MaxBurst := rest.getD (length + 2) d
                      Attributes := rest.getD (length + 3) d
                      BytesPerInterval :=
                        rest.getD (length + 4) d + 256 * rest.getD (length + 5) d } }
              -- `pos = nextPos; length = companionLen` then `pos += length`
              .next (length + companionLen)
                { st with curEndpoints := st.curEndpoints ++ [endpoint] }
            else
              .next length { st with curEndpoints := st.curEndpoints ++ [endpoint] }
          else
            .next length { st with curEndpoints := st.curEndpoints ++ [endpoint] }
    else
      -- interface association and unknown/class-specific descriptors alike:
      -- raw bytes into the open alt setting's extra, else the config's
      match st.cur with
      | some _ =>
        .next length { st with extraBuf := st.extraBuf ++ rest.take length }
      | none =>
        .next length { st with cExtra := st.cExtra ++ rest.take length }

/-- The walk itself.  `fuel` bounds the iteration count; each iteration
consumes at least one byte of `rest`, so any `fuel ≥ rest.length` gives the
exact loop (see `unmarshalLoop_congr`). -/
def unmarshalLoop (d : Nat) (fuel : Nat) (rest : List Nat) (st : LoopState) :
    Except ParseErr LoopState :=
  match fuel with
  | 0 => .ok st
  | fuel + 1 =>
    match loopStep d rest st with
    | .done r => r
    | .next n st' => unmarshalLoop d fuel (rest.drop n) st'

/-- `ConfigDescriptor.Unmarshal` (src/config.go lines 75-237), with `d` the
instrumentation default returned by an out-of-bounds read. -/
def unmarshalD (d : Nat) (data : List Nat) : Except ParseErr ConfigDescriptor :=
  if data.length < 9 then .error (.configTooShort data.length)
  else
    match unmarshalLoop d data.length (data.drop 9) ⟨[], none, [], [], []⟩ with
    | .error e => .error e
    | .ok st =>
      let st1 := flushST st
      .ok
        { Length := data.getD 0 d
          DescriptorType := data.getD 1 d
          TotalLength := data.getD 2 d + 256 * data.getD 3 d
          NumInterfaces := data.getD 4 d
          ConfigurationValue := data.getD 5 d
          ConfigurationIndex := data.getD 6 d
          Attributes := data.getD 7 d
          MaxPower := data.getD 8 d
          -- `for i := range uint8(255)`: interface numbers 0 through 254
          Interfaces := (List.range 255).filterMap (lookupIface st1.imap)
          Extra := st1.cExtra }

/-- `ConfigDescriptor.Unmarshal` proper (out-of-range reads never happen;
the default 0 is arbitrary, see the C7 theorem). -/
def Unmarshal (data : List Nat) : Except ParseErr ConfigDescriptor :=
  unmarshalD 0 data

/-! ## Basic facts about the walk -/

theorem getD_def_eq (l : List Nat) (n d₁ d₂ : Nat) (h : n < l.length) :
    l.getD n d₁ = l.getD n d₂ := by
  induction l generalizing n with
  | nil => simp at h
  | cons a l ih =>
    cases n with
    | zero => rfl
    | succ n => simpa using ih n (by simpa using h)

theorem getD_cons_cons (a b : Nat) (l : List Nat) (n d : Nat) :
    (a :: b :: l).getD (n + 2) d = l.getD n d := rfl

theorem getD_ge_two (a b : Nat) (l : List Nat) (n d : Nat) (h : 2 ≤ n) :
    (a :: b :: l).getD n d = l.getD (n - 2) d := by
  obtain ⟨m, rfl⟩ := Nat.exists_eq_add_of_le h
  rw [Nat.add_comm 2 m, getD_cons_cons]
  simp

/-- The walk never reads outside the guards established by its bounds
checks: one step does not depend on the value returned for an
out-of-range read. -/
theorem loopStep_d_eq (d₁ d₂ : Nat) (rest : List Nat) (st : LoopState) :
    loopStep d₁ rest st = loopStep d₂ rest st := by
  obtain ⟨im, cur, ceps, ebuf, cex⟩ := st
  cases rest with
  | nil => rfl
  | cons b0 rest1 =>
  cases rest1 with
  | nil => rfl
  | cons b1 r =>
    unfold loopStep
    simp only [List.getD_cons_zero, List.getD_cons_succ, List.length_cons]
    have h2 : ¬ (r.length + 1 + 1 < 2) := by omega
    rw [if_neg h2, if_neg h2]
    by_cases h0 : b0 = 0 ∨ r.length + 1 + 1 < b0
    · rw [if_pos h0, if_pos h0]
    · rw [if_neg h0, if_neg h0]
      by_cases hIf : b1 = USB_DT_INTERFACE
      · rw [if_pos hIf, if_pos hIf]
        by_cases h9 : b0 < 9
        · rw [if_pos h9, if_pos h9]
        · rw [if_neg h9, if_neg h9]
          have e2 := getD_def_eq r 0 d₁ d₂ (by omega)
          have e3 := getD_def_eq r 1 d₁ d₂ (by omega)
          have e4 := getD_def_eq r 2 d₁ d₂ (by omega)
          have e5 := getD_def_eq r 3 d₁ d₂ (by omega)
          have e6 := getD_def_eq r 4 d₁ d₂ (by omega)
          have e7 := getD_def_eq r 5 d₁ d₂ (by omega)
          have e8 := getD_def_eq r 6 d₁ d₂ (by omega)
          rw [e2, e3, e4, e5, e6, e7, e8]
      · rw [if_neg hIf, if_neg hIf]
        by_cases hEp : b1 = USB_DT_ENDPOINT
        · rw [if_pos hEp, if_pos hEp]
          cases cur with
          | none => rfl
          | some c =>
            simp only
            by_cases h7 : b0 < 7
            · rw [if_pos h7, if_pos h7]
            · rw [if_neg h7, if_neg h7]
              have e2 := getD_def_eq r 0 d₁ d₂ (by omega)
              have e3 := getD_def_eq r 1 d₁ d₂ (by omega)
              have e4 := getD_def_eq r 2 d₁ d₂ (by omega)
              have e5 := getD_def_eq r 3 d₁ d₂ (by omega)
              have e6 := getD_def_eq r 4 d₁ d₂ (by omega)
              rw [e2, e3, e4, e5, e6]
              by_cases hpk : b0 + 2 ≤ r.length + 1 + 1
              · have epk : (b1 :: r).getD b0 d₁ = (b1 :: r).getD b0 d₂ :=
                  getD_def_eq _ _ d₁ d₂ (by simp only [List.length_cons]; omega)
                rw [epk]
                by_cases hcs : b0 + 2 ≤ r.length + 1 + 1 ∧
                    (b1 :: r).getD b0 d₂ = USB_DT_SS_ENDPOINT_COMPANION
                · rw [if_pos hcs, if_pos hcs]
                  have ecl : (b0 :: b1 :: r).getD b0 d₁ =
                      (b0 :: b1 :: r).getD b0 d₂ :=
                    getD_def_eq _ _ d₁ d₂ (by simp only [List.length_cons]; omega)
                  rw [ecl]
                  by_cases hin : b0 + (b0 :: b1 :: r).getD b0 d₂ ≤ r.length + 1 + 1 ∧
                      6 ≤ (b0 :: b1 :: r).getD b0 d₂
                  · rw [if_pos hin, if_pos hin]
                    obtain ⟨hin1, hin2⟩ := hin
                    have f1 : r.getD b0 d₁ = r.getD b0 d₂ :=
                      getD_def_eq _ _ d₁ d₂ (by omega)
                    have f2 : r.getD (b0 + 1) d₁ = r.getD (b0 + 1) d₂ :=
                      getD_def_eq _ _ d₁ d₂ (by omega)
                    have f3 : r.getD (b0 + 2) d₁ = r.getD (b0 + 2) d₂ :=
                      getD_def_eq _ _ d₁ d₂ (by omega)
                    have f4 : r.getD (b0 + 3) d₁ = r.getD (b0 + 3) d₂ :=
                      getD_def_eq _ _ d₁ d₂ (by omega)
                    rw [f1, f2, f3, f4]
                  · rw [if_neg hin, if_neg hin]
                · rw [if_neg hcs, if_neg hcs]
              · have hneg : ¬ (b0 + 2 ≤ r.length + 1 + 1 ∧
                    (b1 :: r).getD b0 d₁ = USB_DT_SS_ENDPOINT_COMPANION) :=
                  fun h => hpk h.1
                have hneg' : ¬ (b0 + 2 ≤ r.length + 1 + 1 ∧
                    (b1 :: r).getD b0 d₂ = USB_DT_SS_ENDPOINT_COMPANION) :=
                  fun h => hpk h.1
                rw [if_neg hneg, if_neg hneg']
        · rw [if_neg hEp, if_neg hEp]

/-- A continuing step consumes at least one and at most `rest.length` bytes. -/
theorem loopStep_next_bounds (d : Nat) (rest : List Nat) (st : LoopState)
    (n : Nat) (st' : LoopState) (h : loopStep d rest st = .next n st') :
    1 ≤ n ∧ n ≤ rest.length := by
  obtain ⟨im, cur, ceps, ebuf, cex⟩ := st
  cases rest with
  | nil => exact StepRes.noConfusion h
  | cons b0 rest1 =>
  cases rest1 with
  | nil => exact StepRes.noConfusion h
  | cons b1 r =>
    unfold loopStep at h
    simp only [List.getD_cons_zero, List.getD_cons_succ, List.length_cons] at h
    rw [if_neg (by omega : ¬ (r.length + 1 + 1 < 2))] at h
    simp only [List.length_cons]
    by_cases h0 : b0 = 0 ∨ r.length + 1 + 1 < b0
    · rw [if_pos h0] at h; exact StepRes.noConfusion h
    · rw [if_neg h0] at h
      by_cases hIf : b1 = USB_DT_INTERFACE
      · rw [if_pos hIf] at h
        by_cases h9 : b0 < 9
        · rw [if_pos h9] at h; exact StepRes.noConfusion h
        · rw [if_neg h9] at h
          injection h with h1 h2
          omega
      · rw [if_neg hIf] at h
        by_cases hEp : b1 = USB_DT_ENDPOINT
        · rw [if_pos hEp] at h
          cases cur with
          | none =>
            simp only at h
            injection h with h1 h2
            omega
          | some c =>
            simp only at h
            by_cases h7 : b0 < 7
            · rw [if_pos h7] at h; exact StepRes.noConfusion h
            · rw [if_neg h7] at h
              by_cases hcs : b0 + 2 ≤ r.length + 1 + 1 ∧
                  (b1 :: r).getD b0 d = USB_DT_SS_ENDPOINT_COMPANION
              · rw [if_pos hcs] at h
                by_cases hin : b0 + (b0 :: b1 :: r).getD b0 d ≤ r.length + 1 + 1 ∧
                    6 ≤ (b0 :: b1 :: r).getD b0 d
                · rw [if_pos hin] at h
                  injection h with h1 h2
                  omega
                · rw [if_neg hin] at h
                  injection h with h1 h2
                  omega
              · rw [if_neg hcs] at h
                injection h with h1 h2
                omega
        · rw [if_neg hEp] at h
          cases cur with
          | none =>
            simp only at h
            injection h with h1 h2
            omega
          | some c =>
            simp only at h
            injection h with h1 h2
            omega

/-- Any fuel of at least `rest.length` computes the exact loop. -/
theorem unmarshalLoop_congr (d : Nat) :
    ∀ f₁ f₂ (rest : List Nat) (st : LoopState), rest.length ≤ f₁ →
    rest.length ≤ f₂ →
    unmarshalLoop d f₁ rest st = unmarshalLoop d f₂ rest st := by
  intro f₁
  induction f₁ with
  | zero =>
    intro f₂ rest st h1 h2
    have hr : rest = [] := List.eq_nil_of_length_eq_zero (by omega)
    subst hr
    cases f₂ with
    | zero => rfl
    | succ g => rfl
  | succ f ih =>
    intro f₂ rest st h1 h2
    cases f₂ with
    | zero =>
      have hr : rest = [] := List.eq_nil_of_length_eq_zero (by omega)
      subst hr
      rfl
    | succ g =>
      simp only [unmarshalLoop]
      cases hstep : loopStep d rest st with
      | done r => rfl
      | next n st' =>
        have hb := loopStep_next_bounds d rest st n st' hstep
        exact ih g (rest.drop n) st'
          (by simp only [List.length_drop]; omega)
          (by simp only [List.length_drop]; omega)

/-- The whole walk is independent of the value an out-of-range read would
return: it never actually reads out of range. -/
theorem unmarshalLoop_d_eq (d₁ d₂ : Nat) :
    ∀ (f : Nat) (rest : List Nat) (st : LoopState),
    unmarshalLoop d₁ f rest st = unmarshalLoop d₂ f rest st := by
  intro f
  induction f with
  | zero => intro rest st; rfl
  | succ f ih =>
    intro rest st
    simp only [unmarshalLoop]
    rw [loopStep_d_eq d₁ d₂]
    cases hstep : loopStep d₂ rest st with
    | done r => rfl
    | next n st' => exact ih (rest.drop n) st'

/-- `Unmarshal` is independent of the instrumentation default. -/
theorem unmarshalD_d_eq (d₁ d₂ : Nat) (data : List Nat) :
    unmarshalD d₁ data = unmarshalD d₂ data := by
  unfold unmarshalD
  by_cases h : data.length < 9
  · rw [if_pos h, if_pos h]
  · rw [if_neg h, if_neg h]
    rw [unmarshalLoop_d_eq d₁ d₂]
    cases hloop : unmarshalLoop d₂ data.length (data.drop 9) ⟨[], none, [], [], []⟩ with
    | error e => rfl
    | ok st =>
      have g0 := getD_def_eq data 0 d₁ d₂ (by omega)
      have g1 := getD_def_eq data 1 d₁ d₂ (by omega)
      have g2 := getD_def_eq data 2 d₁ d₂ (by omega)
      have g3 := getD_def_eq data 3 d₁ d₂ (by omega)
      have g4 := getD_def_eq data 4 d₁ d₂ (by omega)
      have g5 := getD_def_eq data 5 d₁ d₂ (by omega)
      have g6 := getD_def_eq data 6 d₁ d₂ (by omega)
      have g7 := getD_def_eq data 7 d₁ d₂ (by omega)
      have g8 := getD_def_eq data 8 d₁ d₂ (by omega)
      rw [g0, g1, g2, g3, g4, g5, g6, g7, g8]

/-! ## Running the walk block by block -/

/-- The loop with its canonical fuel. -/
def runLoop (d : Nat) (rest : List Nat) (st : LoopState) :
    Except ParseErr LoopState :=
  unmarshalLoop d rest.length rest st

theorem runLoop_of_fuel (d : Nat) (f : Nat) (rest : List Nat) (st : LoopState)
    (h : rest.length ≤ f) :
    unmarshalLoop d f rest st = runLoop d rest st :=
  unmarshalLoop_congr d f rest.length rest st h (Nat.le_refl _)

theorem runLoop_done (d : Nat) (rest : List Nat) (st : LoopState)
    (r : Except ParseErr LoopState) (h : loopStep d rest st = .done r) :
    runLoop d rest st = r := by
  cases rest with
  | nil =>
    have hr : r = .ok st := by
      have h0 : loopStep d [] st = .done (.ok st) := rfl
      rw [h0] at h
      injection h with h1
      exact h1.symm
    simp [runLoop, unmarshalLoop, hr]
  | cons b rest1 =>
    simp only [runLoop, List.length_cons, unmarshalLoop, h]

theorem runLoop_next (d : Nat) (rest : List Nat) (st : LoopState)
    (n : Nat) (st' : LoopState) (h : loopStep d rest st = .next n st') :
    runLoop d rest st = runLoop d (rest.drop n) st' := by
  have hb := loopStep_next_bounds d rest st n st' h
  cases rest with
  | nil => exact StepRes.noConfusion h
  | cons b rest1 =>
    simp only [runLoop, List.length_cons, unmarshalLoop, h]
    exact runLoop_of_fuel d rest1.length ((b :: rest1).drop n) st'
      (by simp only [List.length_drop, List.length_cons]; omega)

/-- A well-formed raw extra block (as used by the generator below): its first
byte is its own length, at least two bytes, and its type byte is neither the
interface nor the endpoint code. -/
def ExtraBlockOk (bs : List Nat) : Prop :=
  2 ≤ bs.length ∧ bs.getD 0 0 = bs.length ∧
  bs.getD 1 0 ≠ USB_DT_INTERFACE ∧ bs.getD 1 0 ≠ USB_DT_ENDPOINT

instance (bs : List Nat) : Decidable (ExtraBlockOk bs) := by
  unfold ExtraBlockOk; infer_instance

/-- Stepping over an extra block with no open alt setting appends its raw
bytes to the config's `Extra`. -/
theorem runLoop_extra_none (bs tail : List Nat) (st : LoopState)
    (hbs : ExtraBlockOk bs) (hcur : st.cur = none) :
    runLoop 0 (bs ++ tail) st =
      runLoop 0 tail { st with cExtra := st.cExtra ++ bs } := by
  obtain ⟨hlen, hlenEq, hIf, hEp⟩ := hbs
  cases bs with
  | nil => simp at hlen
  | cons b0 bs1 =>
  cases bs1 with
  | nil => simp at hlen
  | cons b1 bs2 =>
    simp only [List.getD_cons_zero, List.getD_cons_succ, List.length_cons] at hlenEq hIf hEp
    subst hlenEq
    have hstep : loopStep 0 ((bs2.length + 1 + 1) :: b1 :: bs2 ++ tail) st =
        .next (bs2.length + 1 + 1)
          { st with cExtra := st.cExtra ++ ((bs2.length + 1 + 1) :: b1 :: bs2) } := by
      unfold loopStep
      simp only [List.cons_append, List.getD_cons_zero, List.getD_cons_succ,
        List.length_cons, List.length_append]
      rw [if_neg (by omega)]
      rw [if_neg (by omega)]
      rw [if_neg hIf]
      rw [if_neg hEp]
      rw [hcur]
      have htake : ((bs2.length + 1 + 1) :: b1 :: (bs2 ++ tail)).take (bs2.length + 1 + 1) =
          (bs2.length + 1 + 1) :: b1 :: bs2 := by
        simp only [List.take_succ_cons]
        rw [List.take_left' rfl]
      have hdrop : ((bs2.length + 1 + 1) :: b1 :: (bs2 ++ tail)).drop (bs2.length + 1 + 1) =
          tail := by
        simp only [List.drop_succ_cons]
        exact List.drop_left' rfl
      rw [htake]
    rw [runLoop_next 0 _ st _ _ hstep]
    have hdrop2 : (((bs2.length + 1 + 1) :: b1 :: bs2) ++ tail).drop (bs2.length + 1 + 1) =
        tail := by
      simp only [List.cons_append, List.drop_succ_cons]
      exact List.drop_left' rfl
    rw [hdrop2]

/-- Stepping over an extra block inside an open alt setting appends its raw
bytes to `extraBuffer`. -/
theorem runLoop_extra_some (bs tail : List Nat) (st : LoopState)
    (c : InterfaceAltSetting) (hbs : ExtraBlockOk bs) (hcur : st.cur = some c) :
    runLoop 0 (bs ++ tail) st =
      runLoop 0 tail { st with extraBuf := st.extraBuf ++ bs } := by
  obtain ⟨hlen, hlenEq, hIf, hEp⟩ := hbs
  cases bs with
  | nil => simp at hlen
  | cons b0 bs1 =>
  cases bs1 with
  | nil => simp at hlen
  | cons b1 bs2 =>
    simp only [List.getD_cons_zero, List.getD_cons_succ, List.length_cons] at hlenEq hIf hEp
    subst hlenEq
    have hstep : loopStep 0 ((bs2.length + 1 + 1) :: b1 :: bs2 ++ tail) st =
        .next (bs2.length + 1 + 1)
          { st with extraBuf := st.extraBuf ++ ((bs2.length + 1 + 1) :: b1 :: bs2) } := by
      unfold loopStep
      simp only [List.cons_append, List.getD_cons_zero, List.getD_cons_succ,
        List.length_cons, List.length_append]
      rw [if_neg (by omega)]
      rw [if_neg (by omega)]
      rw [if_neg hIf]
      rw [if_neg hEp]
      rw [hcur]
      have htake : ((bs2.length + 1 + 1) :: b1 :: (bs2 ++ tail)).take (bs2.length + 1 + 1) =
          (bs2.length + 1 + 1) :: b1 :: bs2 := by
        simp only [List.take_succ_cons]
        rw [List.take_left' rfl]
      rw [htake]
    rw [runLoop_next 0 _ st _ _ hstep]
    have hdrop2 : (((bs2.length + 1 + 1) :: b1 :: bs2) ++ tail).drop (bs2.length + 1 + 1) =
        tail := by
      simp only [List.cons_append, List.drop_succ_cons]
      exact List.drop_left' rfl
    rw [hdrop2]

/-- Stepping over a 9-byte interface descriptor: flush the pending alt
setting and open a fresh one. -/
theorem runLoop_iface (n alt ne cl su pr ix : Nat) (tail : List Nat)
    (st : LoopState) :
    runLoop 0 (9 :: USB_DT_INTERFACE :: n :: alt :: ne :: cl :: su :: pr :: ix :: tail) st =
      runLoop 0 tail
        { flushST st with
          cur := some ⟨9, USB_DT_INTERFACE, n, alt, ne, cl, su, pr, ix, [], []⟩
          curEndpoints := [] } := by
  have hstep : loopStep 0
      (9 :: USB_DT_INTERFACE :: n :: alt :: ne :: cl :: su :: pr :: ix :: tail) st =
      .next 9
        { flushST st with
          cur := some ⟨9, USB_DT_INTERFACE, n, alt, ne, cl, su, pr, ix, [], []⟩
          curEndpoints := [] } := by
    unfold loopStep
    simp only [List.getD_cons_zero, List.getD_cons_succ, List.length_cons]
    rw [if_neg (by omega)]
    rw [if_neg (by omega)]
    rw [if_pos (by trivial)]
    rw [if_neg (by omega)]
  rw [runLoop_next 0 _ st _ _ hstep]
  simp only [List.drop_succ_cons, List.drop_zero]

/-- Stepping over a 7-byte endpoint descriptor not followed by a SuperSpeed
companion, inside an open alt setting. -/
theorem runLoop_ep_plain (ad at2 lo hi itv : Nat) (tail : List Nat)
    (st : LoopState) (c : InterfaceAltSetting) (hcur : st.cur = some c)
    (htail : tail = [] ∨ (2 ≤ tail.length ∧
      tail.getD 1 0 ≠ USB_DT_SS_ENDPOINT_COMPANION)) :
    runLoop 0 (7 :: USB_DT_ENDPOINT :: ad :: at2 :: lo :: hi :: itv :: tail) st =
      runLoop 0 tail
        { st with curEndpoints := st.curEndpoints ++
            [⟨7, USB_DT_ENDPOINT, ad, at2, lo + 256 * hi, itv, none, []⟩] } := by
  have hstep : loopStep 0
      (7 :: USB_DT_ENDPOINT :: ad :: at2 :: lo :: hi :: itv :: tail) st =
      .next 7
        { st with curEndpoints := st.curEndpoints ++
            [⟨7, USB_DT_ENDPOINT, ad, at2, lo + 256 * hi, itv, none, []⟩] } := by
    unfold loopStep
    simp only [List.getD_cons_zero, List.getD_cons_succ, List.length_cons]
    rw [if_neg (by omega)]
    rw [if_neg (by omega)]
    rw [if_neg (by simp [USB_DT_INTERFACE, USB_DT_ENDPOINT])]
    rw [if_pos (by trivial)]
    rw [hcur]
    simp only
    rw [if_neg (by omega)]
    rw [if_neg ?hpk]
    case hpk =>
      rcases htail with h | ⟨h2, h48⟩
      · subst h
        intro hc
        have := hc.1
        simp at this
      · intro hc
        exact h48 hc.2
  rw [runLoop_next 0 _ st _ _ hstep]
  simp only [List.drop_succ_cons, List.drop_zero]

/-- Stepping over a 7-byte endpoint descriptor immediately followed by a
6-byte SuperSpeed companion: both are consumed in one iteration and the
companion lands in the endpoint's `SSCompanion`. -/
theorem runLoop_ep_comp (ad at2 lo hi itv mb a2 blo bhi : Nat)
    (tail : List Nat) (st : LoopState) (c : InterfaceAltSetting)
    (hcur : st.cur = some c) :
    runLoop 0 (7 :: USB_DT_ENDPOINT :: ad :: at2 :: lo :: hi :: itv ::
        6 :: USB_DT_SS_ENDPOINT_COMPANION :: mb :: a2 :: blo :: bhi :: tail) st =
      runLoop 0 tail
        { st with curEndpoints := st.curEndpoints ++
            [⟨7, USB_DT_ENDPOINT, ad, at2, lo + 256 * hi, itv,
              some ⟨6, USB_DT_SS_ENDPOINT_COMPANION, mb, a2, blo + 256 * bhi⟩, []⟩] } := by
  have hstep : loopStep 0
      (7 :: USB_DT_ENDPOINT :: ad :: at2 :: lo :: hi :: itv ::
        6 :: USB_DT_SS_ENDPOINT_COMPANION :: mb :: a2 :: blo :: bhi :: tail) st =
      .next (7 + 6)
        { st with curEndpoints := st.curEndpoints ++
            [⟨7, USB_DT_ENDPOINT, ad, at2, lo + 256 * hi, itv,
              some ⟨6, USB_DT_SS_ENDPOINT_COMPANION, mb, a2, blo + 256 * bhi⟩, []⟩] } := by
    unfold loopStep
    simp only [List.getD_cons_zero, List.getD_cons_succ, List.length_cons]
    rw [if_neg (by omega)]
    rw [if_neg (by omega)]
    rw [if_neg (by simp [USB_DT_INTERFACE, USB_DT_ENDPOINT])]
    rw [if_pos (by trivial)]
    rw [hcur]
    simp only
    rw [if_neg (by omega)]
    rw [if_pos (by refine ⟨by omega, by trivial⟩)]
    rw [if_pos (by refine ⟨by omega, by omega⟩)]
  rw [runLoop_next 0 _ st _ _ hstep]
  have h13 : (7 : Nat) + 6 = 13 := rfl
  rw [h13]
  simp only [List.drop_succ_cons, List.drop_zero]

/-! ## A generator for well-formed configuration descriptor byte streams

`GConfig` describes a config in the layout the spec calls well-formed:
a 9-byte header, then raw extra blocks, then the interfaces in ascending
interface-number order, each a contiguous group of alt settings; each alt
setting is a 9-byte interface descriptor followed by its class-specific
blocks and then its endpoints; each endpoint is a 7-byte descriptor
optionally followed by its 6-byte SuperSpeed companion. -/

structure GEndpoint where
  addr : Nat
  attr : Nat
  mpLo : Nat
  mpHi : Nat
  interval : Nat
  comp : Option (Nat × Nat × Nat × Nat)
deriving DecidableEq

def compBytes : Option (Nat × Nat × Nat × Nat) → List Nat
  | none => []
  | some (mb, a2, blo, bhi) => [6, USB_DT_SS_ENDPOINT_COMPANION, mb, a2, blo, bhi]

def epBytes (e : GEndpoint) : List Nat :=
  7 :: USB_DT_ENDPOINT :: e.addr :: e.attr :: e.mpLo :: e.mpHi :: e.interval ::
    compBytes e.comp

/-- The `Endpoint` the parser builds from `epBytes`. -/
def epTree (e : GEndpoint) : Endpoint :=
  { Length := 7
    DescriptorType := USB_DT_ENDPOINT
    EndpointAddr := e.addr
    Attributes := e.attr
    MaxPacketSize := e.mpLo + 256 * e.mpHi
    Interval := e.interval
    SSCompanion :=
      match e.comp with
      | none => none
      | some (mb, a2, blo, bhi) =>
        some ⟨6, USB_DT_SS_ENDPOINT_COMPANION, mb, a2, blo + 256 * bhi⟩
    Extra := [] }

structure GAlt where
  num : Nat
  alt : Nat
  nEp : Nat
  cls : Nat
  sub : Nat
  protoV : Nat
  idx : Nat
  extras : List (List Nat)
  eps : List GEndpoint
deriving DecidableEq

def altHdr (a : GAlt) : InterfaceAltSetting :=
  ⟨9, USB_DT_INTERFACE, a.num, a.alt, a.nEp, a.cls, a.sub, a.protoV, a.idx, [], []⟩

def altBytes (a : GAlt) : List Nat :=
  9 :: USB_DT_INTERFACE :: a.num :: a.alt :: a.nEp :: a.cls :: a.sub ::
    a.protoV :: a.idx :: (a.extras.flatten ++ (a.eps.map epBytes).flatten)

/-- The `InterfaceAltSetting` the parser builds from `altBytes`. -/
def altTree (a : GAlt) : InterfaceAltSetting :=
  { altHdr a with Endpoints := a.eps.map epTree, Extra := a.extras.flatten }

structure GIface where
  alts : List GAlt
deriving DecidableEq

def gIfaceNum (i : GIface) : Nat :=
  match i.alts with
  | [] => 0
  | a :: _ => a.num

structure GConfig where
  hdr : List Nat
  cextras : List (List Nat)
  ifaces : List GIface
deriving DecidableEq

/-- Computable strict-ascending check (equivalent to `List.Chain' (· < ·)`,
whose `Decidable` instance does not reduce in the kernel). -/
def ascNat : List Nat → Bool
  | [] => true
  | [_] => true
  | a :: b :: l => decide (a < b) && ascNat (b :: l)

theorem ascNat_iff_chain (l : List Nat) :
    ascNat l = true ↔ List.Chain' (· < ·) l := by
  match l with
  | [] => simp [ascNat]
  | [a] => simp [ascNat]
  | a :: b :: l =>
    rw [ascNat, Bool.and_eq_true, decide_eq_true_eq, ascNat_iff_chain (b :: l),
      List.chain'_cons]

def flattenCfg (G : GConfig) : List Nat :=
  G.hdr ++ G.cextras.flatten ++ (((G.ifaces.map GIface.alts).flatten).map altBytes).flatten

/-- The tree the parser builds from `flattenCfg G`. -/
def treeCfg (G : GConfig) : ConfigDescriptor :=
  { Length := G.hdr.getD 0 0
    DescriptorType := G.hdr.getD 1 0
    TotalLength := G.hdr.getD 2 0 + 256 * G.hdr.getD 3 0
    NumInterfaces := G.hdr.getD 4 0
    ConfigurationValue := G.hdr.getD 5 0
    ConfigurationIndex := G.hdr.getD 6 0
    Attributes := G.hdr.getD 7 0
    MaxPower := G.hdr.getD 8 0
    Interfaces := G.ifaces.map (fun i => ⟨i.alts.map altTree⟩)
    Extra := G.cextras.flatten }

def GAltOk (a : GAlt) : Prop :=
  ∀ bs ∈ a.extras, ExtraBlockOk bs

instance (a : GAlt) : Decidable (GAltOk a) := by
  unfold GAltOk; infer_instance

def GIfaceOk (i : GIface) : Prop :=
  i.alts ≠ [] ∧ ∀ a ∈ i.alts, a.num = gIfaceNum i ∧ GAltOk a

instance (i : GIface) : Decidable (GIfaceOk i) := by
  unfold GIfaceOk; infer_instance

def GConfigOk (G : GConfig) : Prop :=
  G.hdr.length = 9 ∧
  (∀ bs ∈ G.cextras, ExtraBlockOk bs) ∧
  (∀ i ∈ G.ifaces, GIfaceOk i) ∧
  ascNat (G.ifaces.map gIfaceNum) = true ∧
  (∀ i ∈ G.ifaces, gIfaceNum i < 255)

instance (G : GConfig) : Decidable (GConfigOk G) := by
  unfold GConfigOk; infer_instance

/-! ## Walking a whole generated stream -/

theorem flushST_cExtra (st : LoopState) : (flushST st).cExtra = st.cExtra := by
  unfold flushST
  cases st.cur <;> rfl

theorem runLoop_nil (st : LoopState) : runLoop 0 [] st = .ok st :=
  runLoop_done 0 [] st _ rfl

theorem runLoop_extras_none (blocks : List (List Nat)) (tail : List Nat)
    (st : LoopState) (hb : ∀ bs ∈ blocks, ExtraBlockOk bs)
    (hcur : st.cur = none) :
    runLoop 0 (blocks.flatten ++ tail) st =
      runLoop 0 tail { st with cExtra := st.cExtra ++ blocks.flatten } := by
  induction blocks generalizing st with
  | nil => simp
  | cons bs bl ih =>
    rw [List.flatten_cons, List.append_assoc]
    rw [runLoop_extra_none bs _ st (hb bs (by simp)) hcur]
    rw [ih { st with cExtra := st.cExtra ++ bs }
      (fun b hb2 => hb b (List.mem_cons_of_mem _ hb2)) hcur]
    simp [List.append_assoc]

theorem runLoop_extras_some (blocks : List (List Nat)) (tail : List Nat)
    (st : LoopState) (c : InterfaceAltSetting)
    (hb : ∀ bs ∈ blocks, ExtraBlockOk bs) (hcur : st.cur = some c) :
    runLoop 0 (blocks.flatten ++ tail) st =
      runLoop 0 tail { st with extraBuf := st.extraBuf ++ blocks.flatten } := by
  induction blocks generalizing st with
  | nil => simp
  | cons bs bl ih =>
    rw [List.flatten_cons, List.append_assoc]
    rw [runLoop_extra_some bs _ st c (hb bs (by simp)) hcur]
    rw [ih { st with extraBuf := st.extraBuf ++ bs }
      (fun b hb2 => hb b (List.mem_cons_of_mem _ hb2)) hcur]
    simp [List.append_assoc]

theorem runLoop_eps (eps : List GEndpoint) (tail : List Nat) (st : LoopState)
    (c : InterfaceAltSetting) (hcur : st.cur = some c)
    (htail : tail = [] ∨ (2 ≤ tail.length ∧
      tail.getD 1 0 ≠ USB_DT_SS_ENDPOINT_COMPANION)) :
    runLoop 0 ((eps.map epBytes).flatten ++ tail) st =
      runLoop 0 tail { st with curEndpoints := st.curEndpoints ++ eps.map epTree } := by
  induction eps generalizing st with
  | nil => simp
  | cons e el ih =>
    have htail2 : (el.map epBytes).flatten ++ tail = [] ∨
        (2 ≤ ((el.map epBytes).flatten ++ tail).length ∧
          ((el.map epBytes).flatten ++ tail).getD 1 0 ≠ USB_DT_SS_ENDPOINT_COMPANION) := by
      cases el with
      | nil =>
        simp only [List.map_nil, List.flatten_nil, List.nil_append]
        exact htail
      | cons e2 el2 =>
        right
        simp only [List.map_cons, List.flatten_cons, List.append_assoc]
        constructor
        · simp [epBytes]
        · simp [epBytes, USB_DT_ENDPOINT, USB_DT_SS_ENDPOINT_COMPANION]
    simp only [List.map_cons, List.flatten_cons, List.append_assoc]
    cases hcomp : e.comp with
    | none =>
      have heb : epBytes e ++ ((el.map epBytes).flatten ++ tail) =
          7 :: USB_DT_ENDPOINT :: e.addr :: e.attr :: e.mpLo :: e.mpHi ::
            e.interval :: ((el.map epBytes).flatten ++ tail) := by
        simp [epBytes, hcomp, compBytes]
      rw [heb]
      rw [runLoop_ep_plain e.addr e.attr e.mpLo e.mpHi e.interval _ st c hcur htail2]
      rw [ih { st with curEndpoints := st.curEndpoints ++
          [⟨7, USB_DT_ENDPOINT, e.addr, e.attr, e.mpLo + 256 * e.mpHi,
            e.interval, none, []⟩] } hcur]
      have het : epTree e = ⟨7, USB_DT_ENDPOINT, e.addr, e.attr,
          e.mpLo + 256 * e.mpHi, e.interval, none, []⟩ := by
        simp [epTree, hcomp]
      rw [het]
      simp [List.append_assoc]
    | some quad =>
      obtain ⟨mb, a2, blo, bhi⟩ := quad
      have heb : epBytes e ++ ((el.map epBytes).flatten ++ tail) =
          7 :: USB_DT_ENDPOINT :: e.addr :: e.attr :: e.mpLo :: e.mpHi ::
            e.interval :: 6 :: USB_DT_SS_ENDPOINT_COMPANION :: mb :: a2 :: blo ::
            bhi :: ((el.map epBytes).flatten ++ tail) := by
        simp [epBytes, hcomp, compBytes]
      rw [heb]
      rw [runLoop_ep_comp e.addr e.attr e.mpLo e.mpHi e.interval mb a2 blo bhi
        _ st c hcur]
      rw [ih { st with curEndpoints := st.curEndpoints ++
          [⟨7, USB_DT_ENDPOINT, e.addr, e.attr, e.mpLo + 256 * e.mpHi,
            e.interval,
            some ⟨6, USB_DT_SS_ENDPOINT_COMPANION, mb, a2, blo + 256 * bhi⟩, []⟩] } hcur]
      have het : epTree e = ⟨7, USB_DT_ENDPOINT, e.addr, e.attr,
          e.mpLo + 256 * e.mpHi, e.interval,
          some ⟨6, USB_DT_SS_ENDPOINT_COMPANION, mb, a2, blo + 256 * bhi⟩, []⟩ := by
        simp [epTree, hcomp]
      rw [het]
      simp [List.append_assoc]

/-- The loop state after fully processing one alt setting's bytes. -/
def afterAlt (st : LoopState) (a : GAlt) : LoopState :=
  { imap := (flushST st).imap
    cur := some (altHdr a)
    curEndpoints := a.eps.map epTree
    extraBuf := a.extras.flatten
    cExtra := st.cExtra }

theorem runLoop_alt (a : GAlt) (tail : List Nat) (st : LoopState)
    (hx : GAltOk a) (hbuf : (flushST st).extraBuf = [])
    (htail : tail = [] ∨ (2 ≤ tail.length ∧
      tail.getD 1 0 ≠ USB_DT_SS_ENDPOINT_COMPANION)) :
    runLoop 0 (altBytes a ++ tail) st = runLoop 0 tail (afterAlt st a) := by
  have hab : altBytes a ++ tail =
      9 :: USB_DT_INTERFACE :: a.num :: a.alt :: a.nEp :: a.cls :: a.sub ::
        a.protoV :: a.idx ::
        (a.extras.flatten ++ ((a.eps.map epBytes).flatten ++ tail)) := by
    simp [altBytes, List.append_assoc]
  rw [hab]
  rw [runLoop_iface a.num a.alt a.nEp a.cls a.sub a.protoV a.idx _ st]
  rw [runLoop_extras_some a.extras _ _ (altHdr a) hx rfl]
  rw [runLoop_eps a.eps tail _ (altHdr a) rfl htail]
  unfold afterAlt altHdr
  rw [hbuf]
  simp [flushST_cExtra]

theorem runLoop_alts (alts : List GAlt) (st : LoopState)
    (hx : ∀ a ∈ alts, GAltOk a) (hbuf : (flushST st).extraBuf = []) :
    runLoop 0 (alts.map altBytes).flatten st = .ok (alts.foldl afterAlt st) := by
  induction alts generalizing st with
  | nil => simpa using runLoop_nil st
  | cons a al ih =>
    simp only [List.map_cons, List.flatten_cons, List.foldl_cons]
    have htail : (al.map altBytes).flatten = [] ∨
        (2 ≤ (al.map altBytes).flatten.length ∧
          (al.map altBytes).flatten.getD 1 0 ≠ USB_DT_SS_ENDPOINT_COMPANION) := by
      cases al with
      | nil => left; simp
      | cons a2 al2 =>
        right
        simp only [List.map_cons, List.flatten_cons]
        constructor
        · simp [altBytes]
        · simp [altBytes, USB_DT_INTERFACE, USB_DT_SS_ENDPOINT_COMPANION]
    rw [runLoop_alt a _ st (hx a (by simp)) hbuf htail]
    exact ih (afterAlt st a) (fun b hb => hx b (List.mem_cons_of_mem _ hb))
      (by simp [flushST, afterAlt])

theorem afterAlt_cExtra (st : LoopState) (a : GAlt) :
    (afterAlt st a).cExtra = st.cExtra := rfl

theorem foldl_afterAlt_cExtra (alts : List GAlt) (st : LoopState) :
    (alts.foldl afterAlt st).cExtra = st.cExtra := by
  induction alts generalizing st with
  | nil => rfl
  | cons a al ih => simp only [List.foldl_cons]; rw [ih, afterAlt_cExtra]

/-- After the final flush, the interface map is the fold of `addAlt` over all
alt settings in flush order. -/
theorem imap_after_alts (alts : List GAlt) (st : LoopState) :
    (flushST (alts.foldl afterAlt st)).imap =
      alts.foldl (fun m a => addAlt m a.num (altTree a)) (flushST st).imap := by
  induction alts generalizing st with
  | nil => rfl
  | cons a al ih =>
    simp only [List.foldl_cons]
    rw [ih (afterAlt st a)]
    have h : (flushST (afterAlt st a)).imap =
        addAlt (flushST st).imap a.num (altTree a) := by
      simp [flushST, afterAlt, altTree, altHdr]
    rw [h]

theorem addAlt_not_mem (m : List (Nat × Interface)) (n : Nat)
    (a : InterfaceAltSetting) (h : ∀ p ∈ m, p.1 ≠ n) :
    addAlt m n a = m ++ [(n, ⟨[a]⟩)] := by
  induction m with
  | nil => rfl
  | cons p m ih =>
    obtain ⟨k, i⟩ := p
    unfold addAlt
    rw [if_neg (h (k, i) (by simp))]
    rw [ih (fun q hq => h q (List.mem_cons_of_mem _ hq))]
    simp

theorem addAlt_append_same (m : List (Nat × Interface)) (n : Nat)
    (la : List InterfaceAltSetting) (a : InterfaceAltSetting)
    (h : ∀ p ∈ m, p.1 ≠ n) :
    addAlt (m ++ [(n, ⟨la⟩)]) n a = m ++ [(n, ⟨la ++ [a]⟩)] := by
  induction m with
  | nil => simp [addAlt]
  | cons p m ih =>
    obtain ⟨k, i⟩ := p
    simp only [List.cons_append]
    unfold addAlt
    rw [if_neg (h (k, i) (by simp))]
    rw [ih (fun q hq => h q (List.mem_cons_of_mem _ hq))]

theorem foldl_addAlt_same (as : List GAlt) (n : Nat)
    (m : List (Nat × Interface)) (la : List InterfaceAltSetting)
    (h : ∀ p ∈ m, p.1 ≠ n) (ha : ∀ a ∈ as, a.num = n) :
    as.foldl (fun m a => addAlt m a.num (altTree a)) (m ++ [(n, ⟨la⟩)]) =
      m ++ [(n, ⟨la ++ as.map altTree⟩)] := by
  induction as generalizing la with
  | nil => simp
  | cons a as ih =>
    simp only [List.foldl_cons]
    rw [ha a (by simp), addAlt_append_same m n la (altTree a) h]
    rw [ih (la ++ [altTree a]) (fun b hb => ha b (List.mem_cons_of_mem _ hb))]
    simp

/-- Folding all alt settings of a grouped, distinct-numbered interface list
produces one map entry per interface, in order. -/
theorem buildMap_ifaces (ifs : List GIface) (m : List (Nat × Interface))
    (hok : ∀ i ∈ ifs, GIfaceOk i)
    (hdis : ∀ i ∈ ifs, ∀ p ∈ m, p.1 ≠ gIfaceNum i)
    (hpw : List.Pairwise (fun i j => gIfaceNum i ≠ gIfaceNum j) ifs) :
    ((ifs.map GIface.alts).flatten).foldl
        (fun m a => addAlt m a.num (altTree a)) m =
      m ++ ifs.map (fun i => (gIfaceNum i, ⟨i.alts.map altTree⟩)) := by
  induction ifs generalizing m with
  | nil => simp
  | cons i ifs ih =>
    simp only [List.map_cons, List.flatten_cons, List.foldl_append]
    obtain ⟨hne, hall⟩ := hok i (by simp)
    have hstep : i.alts.foldl (fun m a => addAlt m a.num (altTree a)) m =
        m ++ [(gIfaceNum i, ⟨i.alts.map altTree⟩)] := by
      cases halts : i.alts with
      | nil => exact absurd halts hne
      | cons a0 as =>
        simp only [List.foldl_cons]
        have h0 : a0.num = gIfaceNum i := (hall a0 (by simp [halts])).1
        rw [h0, addAlt_not_mem m (gIfaceNum i) (altTree a0)
          (fun p hp => hdis i (by simp) p hp)]
        rw [foldl_addAlt_same as (gIfaceNum i) m [altTree a0]
          (fun p hp => hdis i (by simp) p hp)
          (fun b hb => (hall b (by simp [halts, hb])).1)]
        simp
    rw [hstep]
    have hdis2 : ∀ j ∈ ifs, ∀ p ∈ m ++ [(gIfaceNum i, (⟨i.alts.map altTree⟩ : Interface))],
        p.1 ≠ gIfaceNum j := by
      intro j hj p hp
      rcases List.mem_append.mp hp with hp | hp
      · exact hdis j (List.mem_cons_of_mem _ hj) p hp
      · simp only [List.mem_singleton] at hp
        subst hp
        exact (List.pairwise_cons.mp hpw).1 j hj
    have hrec := ih (m ++ [(gIfaceNum i, (⟨i.alts.map altTree⟩ : Interface))])
      (fun j hj => hok j (List.mem_cons_of_mem _ hj))
      hdis2 (List.Pairwise.sublist (List.sublist_cons_self i ifs) hpw)
    rw [hrec]
    simp

theorem lookupIface_not_mem (m : List (Nat × Interface)) (k : Nat)
    (h : ∀ p ∈ m, p.1 ≠ k) : lookupIface m k = none := by
  induction m with
  | nil => rfl
  | cons p m ih =>
    obtain ⟨q, i⟩ := p
    unfold lookupIface
    rw [if_neg (h (q, i) (by simp))]
    exact ih (fun r hr => h r (List.mem_cons_of_mem _ hr))

theorem filterMap_none_of {α β : Type} (l : List α) (f : α → Option β)
    (h : ∀ x ∈ l, f x = none) : l.filterMap f = [] := by
  induction l with
  | nil => rfl
  | cons x l ih =>
    rw [List.filterMap_cons, h x (by simp)]
    exact ih (fun y hy => h y (List.mem_cons_of_mem _ hy))

/-- Scanning an ascending-key association list through an ascending index
range recovers exactly its values in order. -/
theorem filterMap_range'_lookup (m : List (Nat × Interface)) :
    ∀ (a len : Nat), List.Chain' (· < ·) (m.map Prod.fst) →
    (∀ p ∈ m, a ≤ p.1 ∧ p.1 < a + len) →
    (List.range' a len).filterMap (lookupIface m) = m.map Prod.snd := by
  induction m with
  | nil =>
    intro a len _ _
    exact filterMap_none_of _ _ (fun x _ => rfl)
  | cons p m ih =>
    intro a len hchain hbound
    obtain ⟨k, v⟩ := p
    obtain ⟨hak, hk⟩ := hbound (k, v) (by simp)
    simp only at hak hk
    obtain ⟨j, rfl⟩ : ∃ j, k = a + j := ⟨k - a, by omega⟩
    have hgt : ∀ q ∈ m, a + j < q.1 := by
      intro q hq
      have hp := (List.chain'_iff_pairwise.mp hchain)
      have := (List.pairwise_cons.mp hp).1 q.1 (List.mem_map_of_mem Prod.fst hq)
      exact this
    have hsplit : List.range' a len =
        List.range' a j ++ List.range' (a + j) (len - j) := by
      rw [List.range'_append_1 a j (len - j)]
      congr 1
      omega
    rw [hsplit, List.filterMap_append]
    have hleft : (List.range' a j).filterMap (lookupIface ((a + j, v) :: m)) = [] := by
      apply filterMap_none_of
      intro x hx
      have hxk : x < a + j := by
        have := List.mem_range'_1.mp hx
        omega
      unfold lookupIface
      rw [if_neg (by omega)]
      exact lookupIface_not_mem m x (fun q hq => by have := hgt q hq; omega)
    rw [hleft]
    have hlen2 : len - j = (len - j - 1) + 1 := by omega
    rw [hlen2, List.range'_succ]
    rw [List.filterMap_cons]
    have hhead : lookupIface ((a + j, v) :: m) (a + j) = some v := by
      unfold lookupIface
      rw [if_pos rfl]
    rw [hhead]
    have hcongr : (List.range' (a + j + 1) (len - j - 1)).filterMap
        (lookupIface ((a + j, v) :: m)) =
        (List.range' (a + j + 1) (len - j - 1)).filterMap (lookupIface m) := by
      apply List.filterMap_congr
      intro x hx
      have hxk : a + j + 1 ≤ x := by
        have := List.mem_range'_1.mp hx
        omega
      conv_lhs => unfold lookupIface
      rw [if_neg (by omega)]
    rw [hcongr]
    have hb : ∀ q ∈ m, a + j + 1 ≤ q.1 ∧ q.1 < (a + j + 1) + (len - j - 1) := by
      intro q hq
      have h1 := hgt q hq
      have h2 := (hbound q (List.mem_cons_of_mem _ hq)).2
      omega
    rw [ih (a + j + 1) (len - j - 1) (List.Chain'.tail hchain) hb]
    simp

theorem getD_append_left (l₁ l₂ : List Nat) (n d : Nat) (h : n < l₁.length) :
    (l₁ ++ l₂).getD n d = l₁.getD n d := by
  rw [List.getD_eq_getElem?_getD, List.getD_eq_getElem?_getD,
    List.getElem?_append, if_pos h]

/-- Parsing the flattening of a well-formed generated config yields exactly
its tree: the header fields, the config-level extras in order, one
`Interface` per generated interface in order, each with its alt settings in
generation order, their extras and endpoints (with companions) in order. -/
theorem unmarshal_flatten (G : GConfig) (hG : GConfigOk G) :
    Unmarshal (flattenCfg G) = .ok (treeCfg G) := by
  obtain ⟨hlen, hcex, hifs, hchain, hlt⟩ := hG
  have hflat : flattenCfg G = G.hdr ++ (G.cextras.flatten ++
      (((G.ifaces.map GIface.alts).flatten).map altBytes).flatten) := by
    unfold flattenCfg
    rw [List.append_assoc]
  unfold Unmarshal unmarshalD
  rw [if_neg (by rw [hflat, List.length_append, hlen]; omega)]
  have hdrop : (flattenCfg G).drop 9 = G.cextras.flatten ++
      (((G.ifaces.map GIface.alts).flatten).map altBytes).flatten := by
    rw [hflat]
    exact List.drop_left' hlen
  rw [hdrop]
  rw [runLoop_of_fuel 0 (flattenCfg G).length _ _
    (by rw [hflat]; simp only [List.length_append, hlen]; omega)]
  rw [runLoop_extras_none G.cextras _ _ hcex rfl]
  have hax : ∀ a ∈ (G.ifaces.map GIface.alts).flatten, GAltOk a := by
    intro a ha
    rcases List.mem_flatten.mp ha with ⟨l, hl, hal⟩
    rcases List.mem_map.mp hl with ⟨i, hi, rfl⟩
    exact ((hifs i hi).2 a hal).2
  rw [runLoop_alts ((G.ifaces.map GIface.alts).flatten)
    ⟨[], none, [], [], [] ++ G.cextras.flatten⟩ hax rfl]
  simp only
  have hchain' : List.Chain' (· < ·) (G.ifaces.map gIfaceNum) :=
    (ascNat_iff_chain _).mp hchain
  have hpw : List.Pairwise (fun i j => gIfaceNum i ≠ gIfaceNum j) G.ifaces := by
    have hp := List.chain'_iff_pairwise.mp hchain'
    exact (List.pairwise_map.mp hp).imp (fun h => Nat.ne_of_lt h)
  have himap : (flushST (((G.ifaces.map GIface.alts).flatten).foldl afterAlt
      ⟨[], none, [], [], [] ++ G.cextras.flatten⟩)).imap =
      G.ifaces.map (fun i => (gIfaceNum i, (⟨i.alts.map altTree⟩ : Interface))) := by
    rw [imap_after_alts]
    have hbm := buildMap_ifaces G.ifaces [] hifs (by intro i hi p hp; simp at hp) hpw
    rw [show (flushST ⟨[], none, [], [], [] ++ G.cextras.flatten⟩).imap =
      ([] : List (Nat × Interface)) from rfl]
    rw [hbm]
    simp
  rw [himap]
  have hcfin : (flushST (((G.ifaces.map GIface.alts).flatten).foldl afterAlt
      ⟨[], none, [], [], [] ++ G.cextras.flatten⟩)).cExtra = G.cextras.flatten := by
    rw [flushST_cExtra, foldl_afterAlt_cExtra]
    simp
  rw [hcfin]
  have hget : ∀ k, k < 9 → (flattenCfg G).getD k 0 = G.hdr.getD k 0 := by
    intro k hk
    rw [hflat]
    exact getD_append_left _ _ _ _ (by omega)
  rw [hget 0 (by omega), hget 1 (by omega), hget 2 (by omega), hget 3 (by omega),
    hget 4 (by omega), hget 5 (by omega), hget 6 (by omega), hget 7 (by omega),
    hget 8 (by omega)]
  have hscan : (List.range 255).filterMap (lookupIface
      (G.ifaces.map (fun i => (gIfaceNum i, (⟨i.alts.map altTree⟩ : Interface))))) =
      G.ifaces.map (fun i => (⟨i.alts.map altTree⟩ : Interface)) := by
    rw [List.range_eq_range']
    rw [filterMap_range'_lookup _ 0 255 ?hc ?hb]
    · simp
    case hc =>
      rw [List.map_map]
      have : (Prod.fst ∘ fun i =>
          (gIfaceNum i, (⟨i.alts.map altTree⟩ : Interface))) = gIfaceNum := rfl
      rw [this]
      exact hchain'
    case hb =>
      intro p hp
      rcases List.mem_map.mp hp with ⟨i, hi, rfl⟩
      exact ⟨Nat.zero_le _, by simpa using hlt i hi⟩
  rw [hscan]
  rfl

/-! ## Serialization (spec side)

The repository has no serializer for `ConfigDescriptor` (only `Unmarshal`),
so C6's "serializing the tree back to bytes" is modelled from the spec. -/

/-- Modelled from the spec: serializer absent from src.  Emits the stored
endpoint descriptor fields (max-packet size little-endian), then the
SuperSpeed companion if present, then the endpoint's extra bytes. -/
def serializeEndpoint (e : Endpoint) : List Nat :=
  e.Length :: e.DescriptorType :: e.EndpointAddr :: e.Attributes ::
    (e.MaxPacketSize % 256) :: (e.MaxPacketSize / 256) :: e.Interval ::
    ((match e.SSCompanion with
      | none => []
      | some c => [c.Length, c.DescriptorType, c.MaxBurst, c.Attributes,
          c.BytesPerInterval % 256, c.BytesPerInterval / 256]) ++ e.Extra)

/-- Modelled from the spec: serializer absent from src.  Emits the interface
descriptor fields, then the alt setting's class-specific extra bytes, then
its endpoints. -/
def serializeAlt (a : InterfaceAltSetting) : List Nat :=
  a.Length :: a.DescriptorType :: a.InterfaceNumber :: a.AlternateSetting ::
    a.NumEndpoints :: a.InterfaceClass :: a.InterfaceSubClass ::
    a.InterfaceProtocol :: a.InterfaceIndex ::
    (a.Extra ++ (a.Endpoints.map serializeEndpoint).flatten)

/-- Modelled from the spec: serializer absent from src.  Emits the 9 header
bytes (total length little-endian), the config-level extra bytes, then every
interface's alt settings in order. -/
def serializeConfig (c : ConfigDescriptor) : List Nat :=
  c.Length :: c.DescriptorType :: (c.TotalLength % 256) :: (c.TotalLength / 256) ::
    c.NumInterfaces :: c.ConfigurationValue :: c.ConfigurationIndex ::
    c.Attributes :: c.MaxPower ::
    (c.Extra ++ (c.Interfaces.map
      (fun i => (i.AltSettings.map serializeAlt).flatten)).flatten)

/-- Low byte of a companion's bytes-per-interval, when present. -/
def compLoOk : Option (Nat × Nat × Nat × Nat) → Prop
  | none => True
  | some (_, _, blo, _) => blo < 256

instance (o : Option (Nat × Nat × Nat × Nat)) : Decidable (compLoOk o) := by
  cases o with
  | none => exact inferInstanceAs (Decidable True)
  | some q =>
    obtain ⟨mb, a2, blo, bhi⟩ := q
    exact inferInstanceAs (Decidable (blo < 256))

/-- Little-endian byte pairs in the generator must have a low byte below 256
for serialization to invert parsing. -/
def GEndpointOkB (e : GEndpoint) : Prop :=
  e.mpLo < 256 ∧ compLoOk e.comp

instance (e : GEndpoint) : Decidable (GEndpointOkB e) := by
  unfold GEndpointOkB; infer_instance

def GConfigOkB (G : GConfig) : Prop :=
  G.hdr.getD 2 0 < 256 ∧
  ∀ i ∈ G.ifaces, ∀ a ∈ i.alts, ∀ e ∈ a.eps, GEndpointOkB e

instance (G : GConfig) : Decidable (GConfigOkB G) := by
  unfold GConfigOkB; infer_instance

theorem serializeEndpoint_epTree (e : GEndpoint) (hB : GEndpointOkB e) :
    serializeEndpoint (epTree e) = epBytes e := by
  obtain ⟨hlo, hcomp⟩ := hB
  cases hc : e.comp with
  | none =>
    simp [serializeEndpoint, epTree, epBytes, hc, compBytes]
    omega
  | some quad =>
    obtain ⟨mb, a2, blo, bhi⟩ := quad
    rw [hc] at hcomp
    have hblo : blo < 256 := hcomp
    simp [serializeEndpoint, epTree, epBytes, hc, compBytes]
    omega

theorem serializeEndpoints_epTrees (l : List GEndpoint)
    (hB : ∀ e ∈ l, GEndpointOkB e) :
    ((l.map epTree).map serializeEndpoint).flatten = (l.map epBytes).flatten := by
  induction l with
  | nil => rfl
  | cons e el ih =>
    simp only [List.map_cons, List.flatten_cons]
    rw [serializeEndpoint_epTree e (hB e (by simp))]
    rw [ih (fun x hx => hB x (List.mem_cons_of_mem _ hx))]

theorem serializeAlt_altTree (a : GAlt) (hB : ∀ e ∈ a.eps, GEndpointOkB e) :
    serializeAlt (altTree a) = altBytes a := by
  simp only [serializeAlt, altTree, altHdr, altBytes]
  rw [serializeEndpoints_epTrees a.eps hB]

theorem serializeAlts (al : List GAlt)
    (hB : ∀ a ∈ al, ∀ e ∈ a.eps, GEndpointOkB e) :
    ((al.map altTree).map serializeAlt).flatten = (al.map altBytes).flatten := by
  induction al with
  | nil => rfl
  | cons a al ih =>
    simp only [List.map_cons, List.flatten_cons]
    rw [serializeAlt_altTree a (hB a (by simp))]
    rw [ih (fun x hx => hB x (List.mem_cons_of_mem _ hx))]

theorem serializeIfaces (ifs : List GIface)
    (hB : ∀ i ∈ ifs, ∀ a ∈ i.alts, ∀ e ∈ a.eps, GEndpointOkB e) :
    (ifs.map (fun i => ((i.alts.map altTree).map serializeAlt).flatten)).flatten =
      (((ifs.map GIface.alts).flatten).map altBytes).flatten := by
  induction ifs with
  | nil => rfl
  | cons i ifs ih =>
    simp only [List.map_cons, List.flatten_cons, List.map_append,
      List.flatten_append]
    rw [serializeAlts i.alts (hB i (by simp))]
    rw [ih (fun j hj => hB j (List.mem_cons_of_mem _ hj))]

theorem list_nine (l : List Nat) (h : l.length = 9) :
    l = [l.getD 0 0, l.getD 1 0, l.getD 2 0, l.getD 3 0, l.getD 4 0,
         l.getD 5 0, l.getD 6 0, l.getD 7 0, l.getD 8 0] := by
  rcases l with _ | ⟨b0, _ | ⟨b1, _ | ⟨b2, _ | ⟨b3, _ | ⟨b4, _ | ⟨b5,
    _ | ⟨b6, _ | ⟨b7, _ | ⟨b8, rest⟩⟩⟩⟩⟩⟩⟩⟩⟩ <;> simp_all

/-- Serializing the parsed tree of a well-formed generated stream gives
back the stream. -/
theorem serializeConfig_treeCfg (G : GConfig) (hG : GConfigOk G)
    (hB : GConfigOkB G) :
    serializeConfig (treeCfg G) = flattenCfg G := by
  obtain ⟨hlen, hcex, hifs, hchain, hlt⟩ := hG
  obtain ⟨h2, hepsB⟩ := hB
  have hmod : (G.hdr.getD 2 0 + 256 * G.hdr.getD 3 0) % 256 = G.hdr.getD 2 0 := by
    omega
  have hdiv : (G.hdr.getD 2 0 + 256 * G.hdr.getD 3 0) / 256 = G.hdr.getD 3 0 := by
    omega
  have hint := serializeIfaces G.ifaces hepsB
  simp only [serializeConfig, treeCfg, hmod, hdiv]
  rw [List.map_map]
  have hcomp : ((fun (i : Interface) => (List.map serializeAlt i.AltSettings).flatten) ∘
      (fun (i : GIface) => ({ AltSettings := List.map altTree i.alts } : Interface))) =
      (fun (i : GIface) => ((i.alts.map altTree).map serializeAlt).flatten) := rfl
  rw [hcomp, hint]
  simp only [flattenCfg]
  conv_rhs => rw [list_nine G.hdr hlen]
  simp only [List.cons_append, List.nil_append, List.append_assoc]

/-! ## Invariant of the interface map on arbitrary inputs -/

/-- Every map entry is a nonempty interface whose alt settings all carry the
entry's interface number. -/
def imapInv (m : List (Nat × Interface)) : Prop :=
  ∀ p ∈ m, p.2.AltSettings ≠ [] ∧
    ∀ a ∈ p.2.AltSettings, a.InterfaceNumber = p.1

theorem addAlt_inv (m : List (Nat × Interface)) (n : Nat)
    (a : InterfaceAltSetting) (hm : imapInv m) (ha : a.InterfaceNumber = n) :
    imapInv (addAlt m n a) := by
  induction m with
  | nil =>
    intro p hp
    simp only [addAlt, List.mem_singleton] at hp
    subst hp
    exact ⟨by simp, by simpa using ha⟩
  | cons q m ih =>
    obtain ⟨k, i⟩ := q
    unfold addAlt
    by_cases hk : k = n
    · rw [if_pos hk]
      intro p hp
      rcases List.mem_cons.mp hp with hp | hp
      · subst hp
        constructor
        · simp
        · intro b hb
          rcases List.mem_append.mp hb with hb | hb
          · exact (hm (k, i) (by simp)).2 b hb
          · simp only [List.mem_singleton] at hb
            subst hb
            simp only
            omega
      · exact hm p (List.mem_cons_of_mem _ hp)
    · rw [if_neg hk]
      intro p hp
      rcases List.mem_cons.mp hp with hp | hp
      · subst hp
        exact hm (k, i) (by simp)
      · exact ih (fun q hq => hm q (List.mem_cons_of_mem _ hq)) p hp

theorem flushST_inv (st : LoopState) (h : imapInv st.imap) :
    imapInv (flushST st).imap := by
  unfold flushST
  cases hc : st.cur with
  | none => exact h
  | some c => exact addAlt_inv st.imap c.InterfaceNumber _ h rfl

/-- Each loop step either keeps the interface map or flushes into it. -/
theorem loopStep_imap_cases (d : Nat) (rest : List Nat) (st : LoopState)
    (n : Nat) (st' : LoopState) (h : loopStep d rest st = .next n st') :
    st'.imap = st.imap ∨ st'.imap = (flushST st).imap := by
  obtain ⟨im, cur, ceps, ebuf, cex⟩ := st
  cases rest with
  | nil => exact StepRes.noConfusion h
  | cons b0 rest1 =>
  cases rest1 with
  | nil => exact StepRes.noConfusion h
  | cons b1 r =>
    unfold loopStep at h
    simp only [List.getD_cons_zero, List.getD_cons_succ, List.length_cons] at h
    rw [if_neg (by omega : ¬ (r.length + 1 + 1 < 2))] at h
    by_cases h0 : b0 = 0 ∨ r.length + 1 + 1 < b0
    · rw [if_pos h0] at h; exact StepRes.noConfusion h
    · rw [if_neg h0] at h
      by_cases hIf : b1 = USB_DT_INTERFACE
      · rw [if_pos hIf] at h
        by_cases h9 : b0 < 9
        · rw [if_pos h9] at h; exact StepRes.noConfusion h
        · rw [if_neg h9] at h
          injection h with h1 h2
          right
          rw [← h2]
      · rw [if_neg hIf] at h
        by_cases hEp : b1 = USB_DT_ENDPOINT
        · rw [if_pos hEp] at h
          cases cur with
          | none =>
            simp only at h
            injection h with h1 h2
            left
            rw [← h2]
          | some c =>
            simp only at h
            by_cases h7 : b0 < 7
            · rw [if_pos h7] at h; exact StepRes.noConfusion h
            · rw [if_neg h7] at h
              by_cases hcs : b0 + 2 ≤ r.length + 1 + 1 ∧
                  (b1 :: r).getD b0 d = USB_DT_SS_ENDPOINT_COMPANION
              · rw [if_pos hcs] at h
                by_cases hin : b0 + (b0 :: b1 :: r).getD b0 d ≤ r.length + 1 + 1 ∧
                    6 ≤ (b0 :: b1 :: r).getD b0 d
                · rw [if_pos hin] at h
                  injection h with h1 h2
                  left
                  rw [← h2]
                · rw [if_neg hin] at h
                  injection h with h1 h2
                  left
                  rw [← h2]
              · rw [if_neg hcs] at h
                injection h with h1 h2
                left
                rw [← h2]
        · rw [if_neg hEp] at h
          cases cur with
          | none =>
            simp only at h
            injection h with h1 h2
            left
            rw [← h2]
          | some c =>
            simp only at h
            injection h with h1 h2
            left
            rw [← h2]

theorem unmarshalLoop_inv (d : Nat) :
    ∀ (f : Nat) (rest : List Nat) (st st' : LoopState),
    unmarshalLoop d f rest st = .ok st' → imapInv st.imap → imapInv st'.imap := by
  intro f
  induction f with
  | zero =>
    intro rest st st' h hi
    injection h with h1
    rw [← h1]
    exact hi
  | succ f ih =>
    intro rest st st' h hi
    rw [unmarshalLoop] at h
    cases hstep : loopStep d rest st with
    | done r =>
      rw [hstep] at h
      simp only at h
      -- every break returns the incoming state
      have hr : r = .ok st ∨ ∃ e, r = .error e := by
        clear h
        obtain ⟨im, cur, ceps, ebuf, cex⟩ := st
        cases rest with
        | nil =>
          have : loopStep d [] ⟨im, cur, ceps, ebuf, cex⟩ = .done (.ok ⟨im, cur, ceps, ebuf, cex⟩) := rfl
          rw [this] at hstep
          injection hstep with h1
          exact Or.inl h1.symm
        | cons b0 rest1 =>
        cases rest1 with
        | nil =>
          have : loopStep d [b0] ⟨im, cur, ceps, ebuf, cex⟩ = .done (.ok ⟨im, cur, ceps, ebuf, cex⟩) := by
            unfold loopStep
            rw [if_pos (by simp)]
          rw [this] at hstep
          injection hstep with h1
          exact Or.inl h1.symm
        | cons b1 r2 =>
          unfold loopStep at hstep
          simp only [List.getD_cons_zero, List.getD_cons_succ, List.length_cons] at hstep
          rw [if_neg (by omega : ¬ (r2.length + 1 + 1 < 2))] at hstep
          by_cases h0 : b0 = 0 ∨ r2.length + 1 + 1 < b0
          · rw [if_pos h0] at hstep
            injection hstep with h1
            exact Or.inl h1.symm
          · rw [if_neg h0] at hstep
            by_cases hIf : b1 = USB_DT_INTERFACE
            · rw [if_pos hIf] at hstep
              by_cases h9 : b0 < 9
              · rw [if_pos h9] at hstep
                injection hstep with h1
                exact Or.inr ⟨_, h1.symm⟩
              · rw [if_neg h9] at hstep
                exact StepRes.noConfusion hstep
            · rw [if_neg hIf] at hstep
              by_cases hEp : b1 = USB_DT_ENDPOINT
              · rw [if_pos hEp] at hstep
                cases cur with
                | none => simp only at hstep; exact StepRes.noConfusion hstep
                | some c =>
                  simp only at hstep
                  by_cases h7 : b0 < 7
                  · rw [if_pos h7] at hstep
                    injection hstep with h1
                    exact Or.inr ⟨_, h1.symm⟩
                  · rw [if_neg h7] at hstep
                    by_cases hcs : b0 + 2 ≤ r2.length + 1 + 1 ∧
                        (b1 :: r2).getD b0 d = USB_DT_SS_ENDPOINT_COMPANION
                    · rw [if_pos hcs] at hstep
                      by_cases hin : b0 + (b0 :: b1 :: r2).getD b0 d ≤ r2.length + 1 + 1 ∧
                          6 ≤ (b0 :: b1 :: r2).getD b0 d
                      · rw [if_pos hin] at hstep; exact StepRes.noConfusion hstep
                      · rw [if_neg hin] at hstep; exact StepRes.noConfusion hstep
                    · rw [if_neg hcs] at hstep; exact StepRes.noConfusion hstep
              · rw [if_neg hEp] at hstep
                cases cur with
                | none => simp only at hstep; exact StepRes.noConfusion hstep
                | some c => simp only at hstep; exact StepRes.noConfusion hstep
      rcases hr with hr | ⟨e, hr⟩
      · rw [hr] at h
        injection h with h1
        rw [← h1]
        exact hi
      · rw [hr] at h
        exact Except.noConfusion h
    | next n st2 =>
      rw [hstep] at h
      simp only at h
      rcases loopStep_imap_cases d rest st n st2 hstep with hc | hc
      · exact ih _ st2 st' h (by rw [hc]; exact hi)
      · exact ih _ st2 st' h (by rw [hc]; exact flushST_inv st hi)

/-- The interface number an output `Interface` carries (its alt settings all
agree on it; an empty list cannot occur in parser output). -/
def ifaceNumberOf (i : Interface) : Nat :=
  match i.AltSettings with
  | [] => 0
  | a :: _ => a.InterfaceNumber

theorem lookupIface_mem (m : List (Nat × Interface)) (k : Nat) (i : Interface)
    (h : lookupIface m k = some i) : (k, i) ∈ m := by
  induction m with
  | nil => exact Option.noConfusion h
  | cons p m ih =>
    obtain ⟨q, j⟩ := p
    unfold lookupIface at h
    by_cases hq : q = k
    · rw [if_pos hq] at h
      injection h with h1
      subst hq h1
      simp
    · rw [if_neg hq] at h
      exact List.mem_cons_of_mem _ (ih h)

theorem map_filterMap_eq_filter {α β : Type} (f : α → Option β) (g : β → α)
    (l : List α) (h : ∀ k v, f k = some v → g v = k) :
    (l.filterMap f).map g = l.filter (fun k => (f k).isSome) := by
  induction l with
  | nil => rfl
  | cons x l ih =>
    rw [List.filterMap_cons, List.filter_cons]
    cases hx : f x with
    | none => simpa [hx] using ih
    | some v =>
      simp only [hx, Option.isSome_some, if_pos]
      rw [List.map_cons, h x v hx, ih]

/-- On any accepted input, the output interface list is strictly ascending in
interface number, every interface has a nonempty alt-setting list agreeing on
that number, and the number is below 255. -/
theorem unmarshal_interfaces_sorted (data : List Nat) (cfg : ConfigDescriptor)
    (h : Unmarshal data = .ok cfg) :
    List.Chain' (· < ·) (cfg.Interfaces.map ifaceNumberOf) ∧
    ∀ i ∈ cfg.Interfaces, i.AltSettings ≠ [] ∧
      (∀ a ∈ i.AltSettings, a.InterfaceNumber = ifaceNumberOf i) ∧
      ifaceNumberOf i < 255 := by
  unfold Unmarshal unmarshalD at h
  by_cases hlen : data.length < 9
  · rw [if_pos hlen] at h
    exact Except.noConfusion h
  · rw [if_neg hlen] at h
    cases hloop : unmarshalLoop 0 data.length (data.drop 9) ⟨[], none, [], [], []⟩ with
    | error e =>
      rw [hloop] at h
      exact Except.noConfusion h
    | ok st =>
      rw [hloop] at h
      simp only at h
      injection h with h1
      have hinv : imapInv (flushST st).imap :=
        flushST_inv st (unmarshalLoop_inv 0 data.length (data.drop 9) _ st hloop
          (by intro p hp; simp at hp))
      have hIfs : cfg.Interfaces =
          (List.range 255).filterMap (lookupIface (flushST st).imap) := by
        rw [← h1]
      have hlk : ∀ k i, lookupIface (flushST st).imap k = some i →
          ifaceNumberOf i = k := by
        intro k i hki
        obtain ⟨hne, hall⟩ := hinv (k, i) (lookupIface_mem _ k i hki)
        cases halts : i.AltSettings with
        | nil => exact absurd halts hne
        | cons a as =>
          unfold ifaceNumberOf
          rw [halts]
          exact hall a (by simp [halts])
      constructor
      · rw [hIfs]
        rw [map_filterMap_eq_filter _ _ _ hlk]
        exact ((List.pairwise_lt_range 255).filter _).chain'
      · intro i hi
        rw [hIfs] at hi
        rcases List.mem_filterMap.mp hi with ⟨k, hk, hfk⟩
        obtain ⟨hne, hall⟩ := hinv (k, i) (lookupIface_mem _ k i hfk)
        refine ⟨hne, ?_, ?_⟩
        · intro a ha
          rw [hall a ha, hlk k i hfk]
        · rw [hlk k i hfk]
          exact List.mem_range.mp hk

/-! ## Concrete inputs for the config-parser claims -/

def cfgHdr : List Nat := [9, 2, 32, 0, 1, 1, 0, 192, 50]

/-- Interface 0 alt 1 listed before interface 0 alt 0. -/
def c5Input : List Nat :=
  cfgHdr ++ [9, 4, 0, 1, 0, 255, 1, 0, 0] ++ [9, 4, 0, 0, 0, 255, 1, 0, 0]

/-- Interface 1 listed before interface 0. -/
def c6Input : List Nat :=
  cfgHdr ++ [9, 4, 1, 0, 0, 255, 1, 0, 0] ++ [9, 4, 0, 0, 0, 255, 1, 0, 0]

/-- A 3-byte record with the interface descriptor type code. -/
def c7ifaceShort : List Nat := cfgHdr ++ [3, 4, 0]

/-- An interface followed by a 5-byte record with the endpoint type code. -/
def c7epShort : List Nat :=
  cfgHdr ++ [9, 4, 0, 0, 1, 255, 1, 0, 0] ++ [5, 5, 129, 2, 255]

/-- A 2-byte descriptor (length below 3) of unknown type. -/
def c7tiny : List Nat := cfgHdr ++ [2, 33]

/-- The "strictly increasing alternate settings" property of claim C5. -/
def altsStrictlyIncreasing (cfg : ConfigDescriptor) : Prop :=
  ∀ i ∈ cfg.Interfaces,
    ascNat (i.AltSettings.map (fun a => a.AlternateSetting)) = true

instance (cfg : ConfigDescriptor) : Decidable (altsStrictlyIncreasing cfg) := by
  unfold altsStrictlyIncreasing; infer_instance

/-- A zero-length record stops the walk cleanly with the state built so far. -/
theorem runLoop_zero_break (junk : List Nat) (st : LoopState) :
    runLoop 0 (0 :: junk) st = .ok st := by
  apply runLoop_done
  cases junk with
  | nil => rfl
  | cons b junk =>
    unfold loopStep
    simp only [List.getD_cons_zero, List.length_cons]
    rw [if_neg (by omega)]
    rw [if_pos (Or.inl trivial)]

/-- A record longer than the remaining buffer stops the walk cleanly with the
state built so far. -/
theorem runLoop_oversize_break (b : Nat) (junk : List Nat) (st : LoopState)
    (hb : junk.length + 1 < b) :
    runLoop 0 (b :: junk) st = .ok st := by
  apply runLoop_done
  cases junk with
  | nil => rfl
  | cons b2 junk =>
    unfold loopStep
    simp only [List.getD_cons_zero, List.length_cons]
    rw [if_neg (by omega)]
    rw [if_pos (Or.inr (by simp only [List.length_cons] at hb; omega))]

/-! ## Claim C5 -/

/-- C5 counterexample: `ConfigDescriptor.Unmarshal` accepts an input whose
interface 0 lists alternate setting 1 before alternate setting 0, and the
resulting `AltSettings` sequence 1, 0 is not strictly increasing — the
parser keeps input order and never sorts alternate settings. -/
theorem c5_counterexample :
    ∃ cfg, Unmarshal c5Input = .ok cfg ∧ ¬ altsStrictlyIncreasing cfg :=
  ⟨_, rfl, by decide⟩

/-- C5 (amended): for a well-formed input, each interface's `AltSettings`
list is its alt settings in input order (so the first element is the
first-listed setting), and the `AlternateSetting` values are strictly
increasing exactly when the input lists that interface's alt settings with
strictly increasing alternate-setting numbers. -/
theorem c5_altsettings_input_order (G : GConfig) (cfg : ConfigDescriptor)
    (hG : GConfigOk G) (h : Unmarshal (flattenCfg G) = .ok cfg) :
    cfg.Interfaces = G.ifaces.map (fun i => ⟨i.alts.map altTree⟩) ∧
    ((∀ i ∈ G.ifaces, ascNat (i.alts.map GAlt.alt) = true) →
      altsStrictlyIncreasing cfg) := by
  rw [unmarshal_flatten G hG] at h
  injection h with h1
  subst h1
  constructor
  · rfl
  · intro hinc i hi
    simp only [treeCfg] at hi
    rcases List.mem_map.mp hi with ⟨gi, hgi, rfl⟩
    simp only [List.map_map]
    have hco : ((fun a => a.AlternateSetting) ∘ altTree) = GAlt.alt := rfl
    rw [hco]
    exact hinc gi hgi

def c5WitnessG : GConfig :=
  { hdr := cfgHdr
    cextras := []
    ifaces := [⟨[⟨0, 0, 0, 14, 1, 0, 0, [], []⟩, ⟨0, 1, 0, 14, 2, 0, 0, [], []⟩]⟩] }

/-- C5 witness: the amended theorem applied to a concrete two-alt-setting
config listed in ascending order. -/
theorem c5_witness :
    ∃ cfg, Unmarshal (flattenCfg c5WitnessG) = .ok cfg ∧
      altsStrictlyIncreasing cfg := by
  refine ⟨treeCfg c5WitnessG, unmarshal_flatten c5WitnessG (by decide), ?_⟩
  exact (c5_altsettings_input_order c5WitnessG (treeCfg c5WitnessG) (by decide)
    (unmarshal_flatten c5WitnessG (by decide))).2 (by decide)

/-! ## Claim C6 -/

/-- C6 counterexample: a well-formed input listing interface 1 before
interface 0 parses successfully, but serializing the tree does not give the
input back — the parser reorders interfaces by number. -/
theorem c6_counterexample :
    ∃ cfg, Unmarshal c6Input = .ok cfg ∧ serializeConfig cfg ≠ c6Input :=
  ⟨_, rfl, by decide⟩

/-- C6 (amended): parse-then-serialize is the identity on well-formed inputs
whose interfaces appear grouped in ascending interface-number order (numbers
below 255), with each alt setting's class-specific descriptors between its
interface descriptor and its endpoints; the parser preserves the order of
alt settings, endpoints, companions, and extra bytes, but not of
out-of-order interfaces. -/
theorem c6_roundtrip (G : GConfig) (hG : GConfigOk G) (hB : GConfigOkB G) :
    Except.map serializeConfig (Unmarshal (flattenCfg G)) = .ok (flattenCfg G) := by
  rw [unmarshal_flatten G hG]
  simp only [Except.map]
  rw [serializeConfig_treeCfg G hG hB]

def c6WitnessG : GConfig :=
  { hdr := cfgHdr
    cextras := [[8, 11, 0, 2, 14, 3, 0, 0]]
    ifaces :=
      [⟨[⟨0, 0, 1, 14, 1, 0, 0, [[5, 36, 1, 0, 1]],
          [⟨131, 3, 8, 0, 10, none⟩]⟩]⟩,
       ⟨[⟨1, 0, 1, 14, 2, 0, 0, [],
          [⟨129, 2, 64, 0, 10, some (2, 0, 0, 0)⟩]⟩]⟩] }

/-- C6 witness: the round trip on a concrete config with an interface
association descriptor, a class-specific block, and a SuperSpeed companion. -/
theorem c6_witness :
    Except.map serializeConfig (Unmarshal (flattenCfg c6WitnessG)) =
      .ok (flattenCfg c6WitnessG) :=
  c6_roundtrip c6WitnessG (by decide) (by decide)

/-! ## Claim C7 -/

/-- C7 counterexample: on a 3-byte record carrying the interface type code
(and on a 5-byte record carrying the endpoint type code inside an
interface), `Unmarshal` returns an error instead of the truncated tree. -/
theorem c7_counterexample :
    Unmarshal c7ifaceShort = .error (.ifaceTooShort 3) ∧
    Unmarshal c7epShort = .error (.epTooShort 5) := ⟨rfl, rfl⟩

/-- C7 (amended): the parser never reads out of bounds — its result does not
depend on the value an out-of-range read would produce; a zero-length record
or a record longer than the remaining buffer stops the walk cleanly with the
tree built so far; but an interface descriptor shorter than 9 bytes or an
endpoint descriptor (inside an interface) shorter than 7 bytes is an error
return, and there is no length-below-3 check: a 2-byte unknown descriptor is
consumed into the extra bytes without stopping. -/
theorem c7_parser_safety :
    (∀ (data : List Nat) (d₁ d₂ : Nat), unmarshalD d₁ data = unmarshalD d₂ data) ∧
    (∀ (junk : List Nat) (st : LoopState), runLoop 0 (0 :: junk) st = .ok st) ∧
    (∀ (b : Nat) (junk : List Nat) (st : LoopState), junk.length + 1 < b →
      runLoop 0 (b :: junk) st = .ok st) ∧
    Unmarshal c7ifaceShort = .error (.ifaceTooShort 3) ∧
    Unmarshal c7epShort = .error (.epTooShort 5) ∧
    (∃ cfg, Unmarshal c7tiny = .ok cfg ∧ cfg.Extra = [2, 33]) :=
  ⟨fun data d₁ d₂ => unmarshalD_d_eq d₁ d₂ data,
   fun junk st => runLoop_zero_break junk st,
   fun b junk st hb => runLoop_oversize_break b junk st hb,
   rfl, rfl, ⟨_, rfl, rfl⟩⟩

/-- C7 witness: the amended theorem at concrete inputs. -/
theorem c7_witness :
    unmarshalD 3 c7tiny = unmarshalD 7 c7tiny ∧
    runLoop 0 (0 :: [1, 2, 3]) ⟨[], none, [], [], []⟩ = .ok ⟨[], none, [], [], []⟩ ∧
    runLoop 0 (9 :: [1, 2]) ⟨[], none, [], [], []⟩ = .ok ⟨[], none, [], [], []⟩ :=
  ⟨c7_parser_safety.1 c7tiny 3 7,
   c7_parser_safety.2.1 [1, 2, 3] ⟨[], none, [], [], []⟩,
   c7_parser_safety.2.2.1 9 [1, 2] ⟨[], none, [], [], []⟩ (by decide)⟩

/-! ## Claim C10 -/

/-- Interface 2 listed before interface 0. -/
def c10Input : List Nat :=
  cfgHdr ++ [9, 4, 2, 0, 0, 255, 1, 0, 0] ++ [9, 4, 0, 0, 0, 255, 1, 0, 0]

/-- C10: on every accepted input, the `Interfaces` list is in strictly
ascending interface-number order regardless of input order, every output
interface has a nonempty alt-setting list all carrying its number, and that
number is below 255 — an interface numbered 255 never appears (the
map-to-slice conversion iterates 0 through 254 only). -/
theorem c10_interfaces_ascending (data : List Nat) (cfg : ConfigDescriptor)
    (h : Unmarshal data = .ok cfg) :
    List.Chain' (· < ·) (cfg.Interfaces.map ifaceNumberOf) ∧
    ∀ i ∈ cfg.Interfaces, i.AltSettings ≠ [] ∧
      (∀ a ∈ i.AltSettings, a.InterfaceNumber = ifaceNumberOf i) ∧
      ifaceNumberOf i < 255 :=
  unmarshal_interfaces_sorted data cfg h

/-- C10 witness: the theorem at a concrete out-of-order input. -/
theorem c10_witness :
    ∃ cfg, Unmarshal c10Input = .ok cfg ∧
      (List.Chain' (· < ·) (cfg.Interfaces.map ifaceNumberOf) ∧
       ∀ i ∈ cfg.Interfaces, i.AltSettings ≠ [] ∧
         (∀ a ∈ i.AltSettings, a.InterfaceNumber = ifaceNumberOf i) ∧
         ifaceNumberOf i < 255) :=
  ⟨_, rfl, c10_interfaces_ascending c10Input _ rfl⟩

/-! ## Isochronous transfers (src/isochronous.go, centralized-reaper variant)

Handle state is reduced to the `closed` flag the methods read; each kernel
ioctl's errno is an explicit argument.  Go `uint32` casts keep an explicit
`% 2^32`; the URB's `ActualLength` is an `int32` modelled as `Int` with
explicit wrap-around. -/

inductive GoErr where
  | noDevice
  | errnoE (e : Nat)
  | alreadySubmitted
  | notSubmitted
  | submitFailed (e : Nat)
  | reaperFailed (e : Nat)
  | urbStatus (s : Int)
deriving DecidableEq

structure IsoPacketDescriptor where
  Length : Nat
  ActualLength : Nat
  Status : Int
deriving DecidableEq

structure IsochronousTransfer where
  numPackets : Nat
  packetSize : Nat
  packets : List IsoPacketDescriptor
  urbSlots : List IsoPacketDescriptor
  urbStatus : Int
  urbActualLength : Int
  urbErrorCount : Int
  submitted : Bool
  reaped : Bool
  reapErr : Option GoErr
deriving DecidableEq

/-- Wrap an integer to the `int32` range. -/
def i32wrap (n : Int) : Int := (n + 2 ^ 31) % 2 ^ 32 - 2 ^ 31

/-- `DeviceHandle.NewIsochronousTransfer`: allocate `numPackets` packet
descriptors each requesting `uint32(packetSize)` bytes and copy them into
the URB buffer's slot area. -/
def NewIsochronousTransfer (closed : Bool) (numPackets packetSize : Nat) :
    Except GoErr IsochronousTransfer :=
  if closed then .error .noDevice
  else
    let packets := List.replicate numPackets
      ⟨packetSize % 2 ^ 32, 0, 0⟩
    .ok
      { numPackets := numPackets
        packetSize := packetSize
        packets := packets
        urbSlots := packets
        urbStatus := 0
        urbActualLength := 0
        urbErrorCount := 0
        submitted := false
        reaped := false
        reapErr := none }

/-- The slot-reset loop of `Submit`:
`for i := 0; i < t.numPackets; i++` sets slot `i`'s `ActualLength` and
`Status` to zero and its `Length` back to `uint32(t.packetSize)`. -/
def resetSlotsFrom (n sz i : Nat) : List IsoPacketDescriptor →
    List IsoPacketDescriptor
  | [] => []
  | p :: ps =>
    (if i < n then ⟨sz % 2 ^ 32, 0, 0⟩ else p) :: resetSlotsFrom n sz (i + 1) ps

def resetSlots (n sz : Nat) (ps : List IsoPacketDescriptor) :
    List IsoPacketDescriptor :=
  resetSlotsFrom n sz 0 ps

/-- `IsochronousTransfer.Submit` (src/isochronous.go lines 483-555) up to and
including the submit ioctl: the returned state is the transfer as it stands
when `Submit` returns (the URB block reset happens before the ioctl, so it
persists even when the ioctl fails). -/
def IsochronousTransfer.Submit (t : IsochronousTransfer) (closed : Bool)
    (submitErrno : Nat) : Except GoErr Unit × IsochronousTransfer :=
  if t.submitted then (.error .alreadySubmitted, t)
  else if closed then (.error .noDevice, t)
  else
    let t1 := { t with
      urbStatus := 0
      urbActualLength := 0
      urbErrorCount := 0
      urbSlots := resetSlots t.numPackets t.packetSize t.urbSlots }
    if submitErrno ≠ 0 then (.error (.submitFailed submitErrno), t1)
    else (.ok (), { t1 with submitted := true, reaped := false })

/-- The packet-copy loop of the completion callback:
`for i := 0; i < t.numPackets; i++ { t.packets[i] = isoPackets[i] }`. -/
def copySlotsFrom (n i : Nat) (src : List IsoPacketDescriptor) :
    List IsoPacketDescriptor → List IsoPacketDescriptor
  | [] => []
  | p :: ps =>
    (if i < n then src.getD i ⟨0, 0, 0⟩ else p) :: copySlotsFrom n (i + 1) src ps

def copySlots (n : Nat) (dst src : List IsoPacketDescriptor) :
    List IsoPacketDescriptor :=
  copySlotsFrom n 0 src dst

/-- The completion callback `Submit` registers with the central reaper
(src/isochronous.go lines 525-552): record the error; on success copy the
kernel-written slots out of the URB block and recompute the URB's
`ActualLength` as the `int32` sum of every packet's `ActualLength`;
clear `submitted`, set `reaped`. -/
def urbCompletionCallback (t : IsochronousTransfer) (err : Option GoErr)
    (kernelSlots : List IsoPacketDescriptor) : IsochronousTransfer :=
  match err with
  | some e => { t with reapErr := some e, submitted := false, reaped := true }
  | none =>
    let packets := copySlots t.numPackets t.packets kernelSlots
    let total := packets.foldl
      (fun acc p => i32wrap (acc + i32wrap p.ActualLength)) 0
    { t with
      reapErr := none
      packets := packets
      urbActualLength := total
      submitted := false
      reaped := true }

/-- `IsochronousTransfer.GetActualLength` (after reaping). -/
def IsochronousTransfer.GetActualLength (t : IsochronousTransfer) : Int :=
  t.urbActualLength

/-- Sum of the actual lengths of the packets whose status is zero (the
quantity claim C4 asserts). -/
def sumSuccessfulActual (ps : List IsoPacketDescriptor) : Nat :=
  ps.foldl (fun acc p => if p.Status = 0 then acc + p.ActualLength else acc) 0

/-- Sum of every packet's actual length, status ignored (what the code
computes). -/
def sumAllActual (ps : List IsoPacketDescriptor) : Nat :=
  ps.foldl (fun acc p => acc + p.ActualLength) 0

theorem resetSlotsFrom_all (n sz : Nat) :
    ∀ (ps : List IsoPacketDescriptor) (i : Nat), i + ps.length ≤ n →
    resetSlotsFrom n sz i ps = List.replicate ps.length ⟨sz % 2 ^ 32, 0, 0⟩ := by
  intro ps
  induction ps with
  | nil => intro i _; rfl
  | cons p ps ih =>
    intro i hi
    simp only [List.length_cons] at hi
    unfold resetSlotsFrom
    rw [if_pos (by omega)]
    rw [ih (i + 1) (by omega)]
    rfl

theorem resetSlots_eq_replicate (n sz : Nat) (ps : List IsoPacketDescriptor)
    (h : ps.length = n) :
    resetSlots n sz ps = List.replicate n ⟨sz % 2 ^ 32, 0, 0⟩ := by
  unfold resetSlots
  rw [resetSlotsFrom_all n sz ps 0 (by omega), h]

theorem copySlotsFrom_all (n : Nat) (src : List IsoPacketDescriptor) :
    ∀ (dst : List IsoPacketDescriptor) (i : Nat), i + dst.length ≤ n →
    i + dst.length ≤ src.length →
    copySlotsFrom n i src dst = (src.drop i).take dst.length := by
  intro dst
  induction dst with
  | nil => intro i _ _; rfl
  | cons p ps ih =>
    intro i hn hs
    simp only [List.length_cons] at hn hs
    unfold copySlotsFrom
    rw [if_pos (by omega)]
    have hdrop : src.drop i = src[i] :: src.drop (i + 1) :=
      List.drop_eq_getElem_cons (by omega)
    rw [hdrop]
    simp only [List.length_cons, List.take_succ_cons]
    rw [ih (i + 1) (by omega) (by omega)]
    rw [List.getD_eq_getElem src _ (by omega)]

theorem copySlots_eq (n : Nat) (dst src : List IsoPacketDescriptor)
    (hd : dst.length = n) (hs : src.length = n) :
    copySlots n dst src = src := by
  unfold copySlots
  rw [copySlotsFrom_all n src dst 0 (by omega) (by omega)]
  simp only [List.drop_zero, hd, ← hs, List.take_length]

theorem i32wrap_of_small (v : Int) (h0 : 0 ≤ v) (h1 : v < 2 ^ 31) :
    i32wrap v = v := by
  unfold i32wrap
  omega

theorem foldl_add_acc (ps : List IsoPacketDescriptor) :
    ∀ acc : Nat, ps.foldl (fun a p => a + p.ActualLength) acc =
      acc + sumAllActual ps := by
  induction ps with
  | nil => intro acc; simp [sumAllActual]
  | cons p ps ih =>
    intro acc
    have h1 : sumAllActual (p :: ps) =
        ps.foldl (fun a p => a + p.ActualLength) (0 + p.ActualLength) := rfl
    rw [h1, ih, List.foldl_cons, ih]
    omega

theorem sumAllActual_cons (p : IsoPacketDescriptor)
    (ps : List IsoPacketDescriptor) :
    sumAllActual (p :: ps) = p.ActualLength + sumAllActual ps := by
  have h1 : sumAllActual (p :: ps) =
      ps.foldl (fun a p => a + p.ActualLength) (0 + p.ActualLength) := rfl
  rw [h1, foldl_add_acc]
  omega

theorem foldWrap (ps : List IsoPacketDescriptor) :
    ∀ acc : Int, 0 ≤ acc → acc + (sumAllActual ps : Int) < 2 ^ 31 →
    ps.foldl (fun a p => i32wrap (a + i32wrap p.ActualLength)) acc =
      acc + sumAllActual ps := by
  induction ps with
  | nil => intro acc _ _; simp [sumAllActual]
  | cons p ps ih =>
    intro acc h0 h1
    rw [sumAllActual_cons] at h1
    push_cast at h1
    have hALpos : (0 : Int) ≤ (p.ActualLength : Int) := Int.natCast_nonneg _
    have hSumpos : (0 : Int) ≤ (sumAllActual ps : Int) := Int.natCast_nonneg _
    have hv : i32wrap (p.ActualLength : Int) = p.ActualLength :=
      i32wrap_of_small _ hALpos (by omega)
    have hav : i32wrap (acc + (p.ActualLength : Int)) = acc + p.ActualLength :=
      i32wrap_of_small _ (by omega) (by omega)
    simp only [List.foldl_cons, hv, hav]
    rw [ih (acc + p.ActualLength) (by omega) (by push_cast; omega)]
    rw [sumAllActual_cons]
    push_cast
    ring

/-! ## Claim C3 -/

/-- C3: every call to `IsochronousTransfer.Submit` that passes the
submitted/closed guards — including a resubmit of a reused transfer whose
slot contents were modified — restores every URB packet slot to the
construction-time state (request length `uint32(packetSize)`, actual length
and status zero) before issuing the submit ioctl: the reset state is in the
result even when the ioctl errno is nonzero, and it equals the slots a fresh
`NewIsochronousTransfer` produces, so the N+1-th submit requests the same
bytes as the 1st. -/
theorem c3_submit_resets_packets (t t0 : IsochronousTransfer) (e : Nat)
    (hnew : NewIsochronousTransfer false t.numPackets t.packetSize = .ok t0)
    (hsub : t.submitted = false)
    (hlen : t.urbSlots.length = t.numPackets) :
    (t.Submit false e).2.urbSlots = t0.urbSlots ∧
    t0.urbSlots = List.replicate t.numPackets ⟨t.packetSize % 2 ^ 32, 0, 0⟩ ∧
    (t.Submit false e).2.urbStatus = 0 ∧
    (t.Submit false e).2.urbActualLength = 0 := by
  have ht0 : t0.urbSlots =
      List.replicate t.numPackets ⟨t.packetSize % 2 ^ 32, 0, 0⟩ := by
    unfold NewIsochronousTransfer at hnew
    rw [if_neg (by simp)] at hnew
    simp only at hnew
    injection hnew with h1
    rw [← h1]
  have hreset := resetSlots_eq_replicate t.numPackets t.packetSize t.urbSlots hlen
  unfold IsochronousTransfer.Submit
  rw [hsub]
  simp only [Bool.false_eq_true, if_false, if_neg (by simp : ¬ (false = true))]
  by_cases he : e ≠ 0
  · rw [if_pos he]
    exact ⟨by simp only [hreset, ht0], ht0, rfl, rfl⟩
  · rw [if_neg he]
    exact ⟨by simp only [hreset, ht0], ht0, rfl, rfl⟩

/-- A reused 4-packet, 1024-bytes-per-packet transfer whose slots were
modified by a previous completion (the spec's isochronous-reuse scenario). -/
def c3Reused : IsochronousTransfer :=
  { numPackets := 4
    packetSize := 1024
    packets := [⟨0, 444, 0⟩, ⟨0, 0, -63⟩, ⟨1024, 12, 0⟩, ⟨7, 7, 7⟩]
    urbSlots := [⟨0, 444, 0⟩, ⟨0, 0, -63⟩, ⟨1024, 12, 0⟩, ⟨7, 7, 7⟩]
    urbStatus := -71
    urbActualLength := 456
    urbErrorCount := 1
    submitted := false
    reaped := true
    reapErr := none }

/-- C3 witness: the theorem on the concrete reused transfer. -/
theorem c3_witness :
    ∃ t0, NewIsochronousTransfer false 4 1024 = .ok t0 ∧
      ((c3Reused.Submit false 0).2.urbSlots = t0.urbSlots ∧
       t0.urbSlots = List.replicate 4 ⟨1024 % 2 ^ 32, 0, 0⟩ ∧
       (c3Reused.Submit false 0).2.urbStatus = 0 ∧
       (c3Reused.Submit false 0).2.urbActualLength = 0) :=
  ⟨_, rfl, c3_submit_resets_packets c3Reused _ 0 rfl rfl (by decide)⟩

/-! ## Claim C4 -/

/-- A one-packet transfer whose single packet completed with nonzero status
yet a nonzero kernel-reported actual length. -/
def c4Transfer : IsochronousTransfer :=
  { numPackets := 1
    packetSize := 1024
    packets := [⟨1024, 0, 0⟩]
    urbSlots := [⟨1024, 0, 0⟩]
    urbStatus := 0
    urbActualLength := 0
    urbErrorCount := 0
    submitted := true
    reaped := false
    reapErr := none }

def c4Kernel : List IsoPacketDescriptor := [⟨1024, 5, -71⟩]

/-- C4 counterexample: after completion, `GetActualLength` is 5 — the failed
packet's 5 bytes are counted — while the sum over successful (status-zero)
packets is 0: the code sums every packet's actual length with no status
filter. -/
theorem c4_counterexample :
    (urbCompletionCallback c4Transfer none c4Kernel).GetActualLength = 5 ∧
    sumSuccessfulActual (urbCompletionCallback c4Transfer none c4Kernel).packets = 0 ∧
    (5 : Int) ≠ 0 := by
  refine ⟨by decide, by decide, by decide⟩

/-- C4 (amended): for every completed transfer, the total actual length
stored in the URB and returned by `GetActualLength` is the sum of the
per-packet actual lengths of ALL packets, regardless of per-packet status
(stated below the `int32` overflow bound). -/
theorem c4_total_is_sum_over_all_packets (t : IsochronousTransfer)
    (ks : List IsoPacketDescriptor)
    (hd : t.packets.length = t.numPackets)
    (hs : ks.length = t.numPackets)
    (hsum : sumAllActual ks < 2 ^ 31) :
    (urbCompletionCallback t none ks).GetActualLength = (sumAllActual ks : Int) := by
  unfold urbCompletionCallback IsochronousTransfer.GetActualLength
  simp only
  rw [copySlots_eq t.numPackets t.packets ks hd hs]
  rw [foldWrap ks 0 (by omega) (by push_cast; omega)]
  omega

/-- C4 witness: the amended theorem on a failed packet plus a successful
one — the total counts both (5 + 7 = 12). -/
theorem c4_witness :
    (urbCompletionCallback
        { c4Transfer with numPackets := 2, packets := [⟨1024, 0, 0⟩, ⟨1024, 0, 0⟩] }
        none [⟨1024, 5, -71⟩, ⟨1024, 7, 0⟩]).GetActualLength =
      (sumAllActual [⟨1024, 5, -71⟩, ⟨1024, 7, 0⟩] : Int) :=
  c4_total_is_sum_over_all_packets _ _ (by decide) (by decide) (by decide)

/-! ## Device path validation (src/unnamed/part_003, Linux compat file)

Strings are lists of character codes.  `devicePathMatch` is the anchored
regular expression match against the pattern slash-dev-slash-bus-slash-usb
followed by two groups of exactly three digits; `IsValidDevicePath` then
computes each group's decimal value exactly as the Go digit loops do and
requires both to lie in 1..255. -/

def isDigitCode (c : Nat) : Bool := decide (48 ≤ c) && decide (c ≤ 57)

/-- The anchored match of the regular expression with the two 3-digit
capture groups ("/dev/bus/usb/" is the code sequence
47,100,101,118,47,98,117,115,47,117,115,98,47). -/
def devicePathMatch (p : List Nat) : Option (List Nat × List Nat) :=
  match p with
  | c0 :: c1 :: c2 :: c3 :: c4 :: c5 :: c6 :: c7 :: c8 :: c9 :: c10 :: c11 ::
      c12 :: b1 :: b2 :: b3 :: c16 :: d1 :: d2 :: d3 :: [] =>
    if c0 == 47 && c1 == 100 && c2 == 101 && c3 == 118 && c4 == 47 &&
        c5 == 98 && c6 == 117 && c7 == 115 && c8 == 47 && c9 == 117 &&
        c10 == 115 && c11 == 98 && c12 == 47 && c16 == 47 &&
        isDigitCode b1 && isDigitCode b2 && isDigitCode b3 &&
        isDigitCode d1 && isDigitCode d2 && isDigitCode d3 then
      some ([b1, b2, b3], [d1, d2, d3])
    else none
  | _ => none

/-- The Go digit loop `v = v*10 + int(c - '0')`. -/
def digitsVal (ds : List Nat) : Nat := ds.foldl (fun a c => a * 10 + (c - 48)) 0

def IsValidDevicePath (p : List Nat) : Bool :=
  match devicePathMatch p with
  | none => false
  | some (b, d) =>
    decide (1 ≤ digitsVal b) && decide (digitsVal b ≤ 255) &&
    decide (1 ≤ digitsVal d) && decide (digitsVal d ≤ 255)

/-- Zero-padded three-digit decimal rendering of `n` (for `n ≤ 999`). -/
def pad3 (n : Nat) : List Nat := [48 + n / 100, 48 + n / 10 % 10, 48 + n % 10]

/-- The spec's characterization: exactly /dev/bus/usb/BBB/DDD with BBB and
DDD zero-padded 3-digit decimals whose values lie in 1..255. -/
def SpecValidDevicePath (p : List Nat) : Prop :=
  ∃ B D : Nat, 1 ≤ B ∧ B ≤ 255 ∧ 1 ≤ D ∧ D ≤ 255 ∧
    p = [47, 100, 101, 118, 47, 98, 117, 115, 47, 117, 115, 98, 47] ++
      pad3 B ++ 47 :: pad3 D

theorem digitsVal_three (a b c : Nat) :
    digitsVal [a, b, c] = ((a - 48) * 10 + (b - 48)) * 10 + (c - 48) := by
  simp [digitsVal, List.foldl]

theorem pad3_of_digits (a b c : Nat) (ha : 48 ≤ a) (ha' : a ≤ 57)
    (hb : 48 ≤ b) (hb' : b ≤ 57) (hc : 48 ≤ c) (hc' : c ≤ 57) :
    pad3 (((a - 48) * 10 + (b - 48)) * 10 + (c - 48)) = [a, b, c] := by
  simp only [pad3, List.cons.injEq, and_true]
  omega

theorem devicePathMatch_inv (p b d : List Nat) (h : devicePathMatch p = some (b, d)) :
    ∃ b1 b2 b3 d1 d2 d3 : Nat,
      (48 ≤ b1 ∧ b1 ≤ 57) ∧ (48 ≤ b2 ∧ b2 ≤ 57) ∧ (48 ≤ b3 ∧ b3 ≤ 57) ∧
      (48 ≤ d1 ∧ d1 ≤ 57) ∧ (48 ≤ d2 ∧ d2 ≤ 57) ∧ (48 ≤ d3 ∧ d3 ≤ 57) ∧
      b = [b1, b2, b3] ∧ d = [d1, d2, d3] ∧
      p = [47, 100, 101, 118, 47, 98, 117, 115, 47, 117, 115, 98, 47,
           b1, b2, b3, 47, d1, d2, d3] := by
  unfold devicePathMatch at h
  split at h
  · rename_i c0 c1 c2 c3 c4 c5 c6 c7 c8 c9 c10 c11 c12 b1 b2 b3 c16 d1 d2 d3
    split at h
    · rename_i hdig
      simp only [isDigitCode, Bool.and_eq_true, beq_iff_eq, decide_eq_true_eq] at hdig
      obtain ⟨⟨⟨⟨⟨⟨⟨⟨⟨⟨⟨⟨⟨⟨⟨⟨⟨⟨⟨e0, e1⟩, e2⟩, e3⟩, e4⟩, e5⟩, e6⟩, e7⟩, e8⟩, e9⟩,
        e10⟩, e11⟩, e12⟩, e16⟩, hb1⟩, hb2⟩, hb3⟩, hd1⟩, hd2⟩, hd3⟩ := hdig
      simp only [Option.some.injEq, Prod.mk.injEq] at h
      subst e0 e1 e2 e3 e4 e5 e6 e7 e8 e9 e10 e11 e12 e16
      exact ⟨b1, b2, b3, d1, d2, d3, hb1, hb2, hb3, hd1, hd2, hd3,
        h.1.symm, h.2.symm, rfl⟩
    · exact absurd h (by simp)
  · exact absurd h (by simp)

theorem devicePathMatch_build (b1 b2 b3 d1 d2 d3 : Nat)
    (h : (isDigitCode b1 && isDigitCode b2 && isDigitCode b3 &&
          isDigitCode d1 && isDigitCode d2 && isDigitCode d3) = true) :
    devicePathMatch [47, 100, 101, 118, 47, 98, 117, 115, 47, 117, 115, 98, 47,
        b1, b2, b3, 47, d1, d2, d3] = some ([b1, b2, b3], [d1, d2, d3]) := by
  simp only [Bool.and_eq_true] at h
  simp [devicePathMatch, h.1.1.1.1.1, h.1.1.1.1.2, h.1.1.1.2, h.1.1.2, h.1.2, h.2]

/-- C8: `IsValidDevicePath p` is true exactly when `p` is
/dev/bus/usb/BBB/DDD with BBB and DDD zero-padded three-digit decimals whose
values lie in 1..255 (so /dev/bus/usb/001/001 is accepted while
/dev/bus/usb/000/001, /dev/bus/usb/001/256, /dev/bus/usb/1/1 and the empty
string are rejected). -/
theorem c8_valid_device_path_iff (p : List Nat) :
    IsValidDevicePath p = true ↔ SpecValidDevicePath p := by
  constructor
  · intro h
    unfold IsValidDevicePath at h
    rcases hdm : devicePathMatch p with _ | ⟨b, d⟩
    · rw [hdm] at h; exact absurd h (by simp)
    · rw [hdm] at h
      simp only [Bool.and_eq_true, decide_eq_true_eq] at h
      obtain ⟨b1, b2, b3, d1, d2, d3, h1, h2, h3, h4, h5, h6, rfl, rfl, rfl⟩ :=
        devicePathMatch_inv p b d hdm
      rw [digitsVal_three, digitsVal_three] at h
      refine ⟨((b1 - 48) * 10 + (b2 - 48)) * 10 + (b3 - 48),
              ((d1 - 48) * 10 + (d2 - 48)) * 10 + (d3 - 48),
              h.1.1.1, h.1.1.2, h.1.2, h.2, ?_⟩
      rw [pad3_of_digits b1 b2 b3 h1.1 h1.2 h2.1 h2.2 h3.1 h3.2,
          pad3_of_digits d1 d2 d3 h4.1 h4.2 h5.1 h5.2 h6.1 h6.2]
      simp
  · rintro ⟨B, D, hB1, hB2, hD1, hD2, rfl⟩
    have hb : (isDigitCode (48 + B / 100) && isDigitCode (48 + B / 10 % 10) &&
        isDigitCode (48 + B % 10) && isDigitCode (48 + D / 100) &&
        isDigitCode (48 + D / 10 % 10) && isDigitCode (48 + D % 10)) = true := by
      simp only [isDigitCode, Bool.and_eq_true, decide_eq_true_eq]
      omega
    simp only [pad3, List.cons_append, List.nil_append]
    unfold IsValidDevicePath
    rw [devicePathMatch_build _ _ _ _ _ _ hb]
    simp only [digitsVal_three, Bool.and_eq_true, decide_eq_true_eq]
    omega

/-! ## Device handle close and configuration calls (src/device.go)

The handle's mutable state is its `closed` flag and the set of claimed
interfaces.  Kernel interaction is passed in as parameters: `closeErrno` is
the result of `syscall.Close(h.fd)`, `ioctlErrno` the errno of the control
ioctl, and `busValue` the byte the ioctl would store into the one-byte
buffer. -/

structure DeviceHandle where
  closed : Bool
  claimedIfaces : List Nat
deriving DecidableEq

/-- `DeviceHandle.Close`: a second call returns nil without touching the
state; the first call releases the claimed interfaces, closes the fd
(reporting that error, if any) and marks the handle closed. -/
def DeviceHandle.Close (s : DeviceHandle) (closeErrno : Nat) :
    Option GoErr × DeviceHandle :=
  if s.closed then (none, s)
  else ((if closeErrno = 0 then none else some (.errnoE closeErrno)),
        { closed := true, claimedIfaces := [] })

/-- `DeviceHandle.GetConfiguration`: no closed check at all; the control
ioctl runs against the (possibly already closed) fd and a nonzero errno is
returned verbatim. -/
def DeviceHandle.GetConfiguration (_s : DeviceHandle) (ioctlErrno : Nat)
    (busValue : Nat) : Except GoErr Nat :=
  if ioctlErrno ≠ 0 then .error (.errnoE ioctlErrno) else .ok busValue

/-- `DeviceHandle.SetConfiguration`: checks `closed` first and fails with
ErrDeviceNotFound, otherwise reports the ioctl errno. -/
def DeviceHandle.SetConfiguration (s : DeviceHandle) (_config : Nat)
    (ioctlErrno : Nat) : Except GoErr Unit :=
  if s.closed then .error .noDevice
  else if ioctlErrno ≠ 0 then .error (.errnoE ioctlErrno) else .ok ()

/-- On a closed handle whose fd is stale, the control ioctl fails with
EBADF (errno 9): `GetConfiguration` reports that raw errno, which is not
the no-device error the claim promises for every operation. -/
theorem c9_counterexample :
    DeviceHandle.GetConfiguration ⟨true, []⟩ 9 0 =
        Except.error (GoErr.errnoE 9) ∧
      Except.error (GoErr.errnoE 9) ≠
        (Except.error GoErr.noDevice : Except GoErr Nat) :=
  ⟨rfl, by simp⟩

/-- C9 (amended): once a handle is closed, `Close` is idempotent (returns
nil and leaves the state untouched) and `SetConfiguration` fails with the
no-device error; `GetConfiguration`, however, performs the ioctl regardless
and returns its raw errno verbatim — it never produces the no-device
error. -/
theorem c9_closed_handle (s : DeviceHandle) (h : s.closed = true)
    (ce cfg en e v : Nat) :
    DeviceHandle.Close s ce = (none, s) ∧
    DeviceHandle.SetConfiguration s cfg en = .error .noDevice ∧
    (e ≠ 0 → DeviceHandle.GetConfiguration s e v = .error (.errnoE e)) ∧
    (∀ e2 v2 : Nat,
      DeviceHandle.GetConfiguration s e2 v2 ≠ .error .noDevice) := by
  refine ⟨?_, ?_, ?_, ?_⟩
  · simp [DeviceHandle.Close, h]
  · simp [DeviceHandle.SetConfiguration, h]
  · intro he
    simp [DeviceHandle.GetConfiguration, he]
  · intro e2 v2
    unfold DeviceHandle.GetConfiguration
    split <;> simp

/-- Witness: the amended C9 property at the concrete closed handle. -/
theorem c9_witness :
    DeviceHandle.Close ⟨true, []⟩ 0 = (none, (⟨true, []⟩ : DeviceHandle)) ∧
    DeviceHandle.SetConfiguration ⟨true, []⟩ 1 0 = .error .noDevice ∧
    (9 ≠ 0 →
      DeviceHandle.GetConfiguration ⟨true, []⟩ 9 0 = .error (.errnoE 9)) ∧
    (∀ e2 v2 : Nat,
      DeviceHandle.GetConfiguration ⟨true, []⟩ e2 v2 ≠ .error .noDevice) :=
  c9_closed_handle ⟨true, []⟩ rfl 0 1 0 9 0

/-! ## Centralized reaper lifecycle (src/device.go: Close, registerURBCompletion, reapLoop)

A small-step model of the handle's reaper bookkeeping.  The shared state is
the `closed` flag, the `reaping` flag, the pending-URB registry `reapMap`
(URBs keyed by pointer, here by `Nat`), the history `events` of completion
callbacks already delivered (most recent first), and the history `submits`
of successful submissions.  The transitions, each taken under the
appropriate mutex in the Go code, are:

* `submit` — a transfer's Submit: if the handle is closed or the ioctl
  fails it returns without touching the registry, otherwise it registers
  the URB's callback and starts the reaper (`registerURBCompletion`);
* `close` — `Close` marks the handle closed and returns; it neither drains
  the registry nor waits for the reaper;
* `reapOne` — the reaper's REAPURB ioctl returns a pending URB: its entry
  is removed and its callback invoked with nil or the URB status error;
* `reapClosed` — the reaper's loop-top closed check fires: every pending
  callback is invoked with ErrDeviceNotFound, the registry is cleared and
  the reaper exits;
* `reapFail` — the REAPURB ioctl fails with an errno other than
  EINTR/EAGAIN: every pending callback gets the reaper-failed error, the
  registry is cleared and the reaper exits. -/

inductive UrbRes where
  | ok
  | failed (status : Int)
  | devGone
  | reaperError (e : Nat)
deriving DecidableEq

structure ReapState where
  closed : Bool
  reaping : Bool
  reapMap : List Nat
  events : List (Nat × UrbRes)
  submits : List Nat
deriving DecidableEq

def ReapInit : ReapState :=
  { closed := false, reaping := false, reapMap := [], events := [], submits := [] }

def submitStep (s : ReapState) (u : Nat) (errno : Nat) : ReapState :=
  if s.closed then s
  else if errno ≠ 0 then s
  else { s with reaping := true, reapMap := u :: s.reapMap,
                submits := u :: s.submits }

def closeStep (s : ReapState) : ReapState := { s with closed := true }

def reapOneStep (s : ReapState) (u : Nat) (st : Int) : ReapState :=
  { s with reapMap := s.reapMap.erase u,
           events := (u, if st = 0 then UrbRes.ok else UrbRes.failed st) :: s.events }

def drainStep (s : ReapState) (r : UrbRes) : ReapState :=
  { s with reapMap := [], reaping := false,
           events := s.reapMap.map (fun x => (x, r)) ++ s.events }

inductive ReapStep : ReapState → ReapState → Prop where
  | submit (s : ReapState) (u errno : Nat) (hu : u ∉ s.reapMap) :
      ReapStep s (submitStep s u errno)
  | close (s : ReapState) : ReapStep s (closeStep s)
  | reapOne (s : ReapState) (u : Nat) (st : Int) (hr : s.reaping = true)
      (hm : u ∈ s.reapMap) : ReapStep s (reapOneStep s u st)
  | reapClosed (s : ReapState) (hr : s.reaping = true) (hc : s.closed = true) :
      ReapStep s (drainStep s UrbRes.devGone)
  | reapFail (s : ReapState) (e : Nat) (hr : s.reaping = true) (he : e ≠ 0) :
      ReapStep s (drainStep s (UrbRes.reaperError e))

def ReapReachable (s : ReapState) : Prop :=
  Relation.ReflTransGen ReapStep ReapInit s

def eventCount (s : ReapState) (u : Nat) : Nat :=
  s.events.countP (fun ev => ev.1 == u)

def ReapInv (s : ReapState) : Prop :=
  s.reapMap.Nodup ∧ (s.reaping = false → s.reapMap = []) ∧
  ∀ u : Nat, eventCount s u + (if u ∈ s.reapMap then 1 else 0) = s.submits.count u

theorem countKey_map (l : List Nat) (r : UrbRes) (u : Nat) :
    (l.map (fun x => (x, r))).countP (fun ev => ev.1 == u) = l.count u := by
  induction l with
  | nil => rfl
  | cons a l ih => simp [List.countP_cons, List.count_cons, ih]

theorem nodup_count (l : List Nat) (hnd : l.Nodup) (u : Nat) :
    l.count u = if u ∈ l then 1 else 0 := by
  induction l with
  | nil => rfl
  | cons a l ih =>
    obtain ⟨ha, hnd'⟩ := List.nodup_cons.mp hnd
    by_cases hua : a = u
    · subst hua
      rw [List.count_cons_self, ih hnd', if_neg ha, if_pos (List.mem_cons_self a l)]
    · rw [List.count_cons_of_ne (fun h => hua h.symm), ih hnd']
      by_cases hm : u ∈ l
      · rw [if_pos hm, if_pos (List.mem_cons_of_mem a hm)]
      · rw [if_neg hm,
          if_neg (fun h => (List.mem_cons.mp h).elim (fun h1 => hua h1.symm) hm)]

theorem reapInv_init : ReapInv ReapInit := by
  refine ⟨List.nodup_nil, fun _ => rfl, fun u => ?_⟩
  simp [eventCount, ReapInit]

theorem reapInv_drain (s : ReapState) (r : UrbRes) (hnd : s.reapMap.Nodup)
    (hcnt : ∀ u : Nat,
      eventCount s u + (if u ∈ s.reapMap then 1 else 0) = s.submits.count u) :
    ReapInv (drainStep s r) := by
  refine ⟨List.nodup_nil, fun _ => rfl, fun v => ?_⟩
  have hv0 := hcnt v
  simp only [eventCount, drainStep, List.countP_append, countKey_map] at hv0 ⊢
  rw [nodup_count s.reapMap hnd v, if_neg (List.not_mem_nil v)]
  omega

theorem reapInv_step (s s' : ReapState) (hstep : ReapStep s s') (hinv : ReapInv s) :
    ReapInv s' := by
  obtain ⟨hnd, hidle, hcnt⟩ := hinv
  cases hstep with
  | submit u errno hu =>
    unfold submitStep
    by_cases hc : s.closed
    · rw [if_pos hc]; exact ⟨hnd, hidle, hcnt⟩
    · rw [if_neg hc]
      by_cases he : errno ≠ 0
      · rw [if_pos he]; exact ⟨hnd, hidle, hcnt⟩
      · rw [if_neg he]
        refine ⟨List.nodup_cons.mpr ⟨hu, hnd⟩, ?_, fun v => ?_⟩
        · intro h; cases h
        have hv0 := hcnt v
        simp only [eventCount] at hv0 ⊢
        by_cases hv : v = u
        · subst hv
          rw [if_pos (List.mem_cons_self v s.reapMap), List.count_cons_self]
          rw [if_neg hu] at hv0
          omega
        · rw [List.count_cons_of_ne hv]
          by_cases hm : v ∈ s.reapMap
          · rw [if_pos (List.mem_cons_of_mem u hm)]
            rw [if_pos hm] at hv0
            omega
          · rw [if_neg (fun h => (List.mem_cons.mp h).elim hv hm)]
            rw [if_neg hm] at hv0
            omega
  | close => exact ⟨hnd, hidle, hcnt⟩
  | reapOne u st hr hm =>
    refine ⟨hnd.erase u, ?_, fun v => ?_⟩
    · intro h
      rw [show (reapOneStep s u st).reaping = s.reaping from rfl, hr] at h
      cases h
    have hv0 := hcnt v
    simp only [eventCount] at hv0
    simp only [eventCount, reapOneStep, List.countP_cons]
    simp only [beq_iff_eq]
    by_cases hv : v = u
    · subst hv
      rw [if_neg (fun h => ((hnd.mem_erase_iff).mp h).1 rfl), if_pos rfl]
      rw [if_pos hm] at hv0
      omega
    · rw [if_neg (fun h => hv h.symm)]
      by_cases hm' : v ∈ s.reapMap
      · rw [if_pos (hnd.mem_erase_iff.mpr ⟨hv, hm'⟩)]
        rw [if_pos hm'] at hv0
        omega
      · rw [if_neg (fun h => hm' (hnd.mem_erase_iff.mp h).2)]
        rw [if_neg hm'] at hv0
        omega
  | reapClosed hr hc => exact reapInv_drain s UrbRes.devGone hnd hcnt
  | reapFail e hr he => exact reapInv_drain s (UrbRes.reaperError e) hnd hcnt

theorem reapInv_reachable (s : ReapState) (h : ReapReachable s) : ReapInv s := by
  induction h with
  | refl => exact reapInv_init
  | tail hab hbc ih => exact reapInv_step _ _ hbc ih

theorem reapStep_closed (s s' : ReapState) (hstep : ReapStep s s')
    (hc : s.closed = true) : s'.closed = true := by
  cases hstep with
  | submit u errno hu =>
    unfold submitStep
    rw [if_pos hc]
    exact hc
  | close => rfl
  | reapOne u st hr hm => exact hc
  | reapClosed hr hc2 => exact hc
  | reapFail e hr he => exact hc

/-- C2: for every reachable reaper state, delivered completions plus the
pending entry (one if registered, zero otherwise) exactly account for the
successful submits of every URB — so each successful submit receives exactly
one completion callback, exactly once, by the time the reaper has exited;
and a failed submit leaves the state untouched, so no callback and no
registry entry ever exist for it. -/
theorem c2_exactly_one_completion (s : ReapState) (h : ReapReachable s) :
    (∀ u : Nat,
      eventCount s u + (if u ∈ s.reapMap then 1 else 0) = s.submits.count u) ∧
    (s.reaping = false → ∀ u : Nat, eventCount s u = s.submits.count u) ∧
    (∀ u errno : Nat, errno ≠ 0 → submitStep s u errno = s) := by
  obtain ⟨hnd, hidle, hcnt⟩ := reapInv_reachable s h
  refine ⟨hcnt, ?_, ?_⟩
  · intro hrp u
    have hu := hcnt u
    rw [hidle hrp] at hu
    simpa using hu
  · intro u errno he
    unfold submitStep
    by_cases hc : s.closed
    · rw [if_pos hc]
    · rw [if_neg hc, if_pos he]

/-- Witness: C2 at the reachable state reached by a successful submit of
URB 1 followed by its reaping. -/
theorem c2_witness :
    eventCount (reapOneStep (submitStep ReapInit 1 0) 1 0) 1 +
      (if 1 ∈ (reapOneStep (submitStep ReapInit 1 0) 1 0).reapMap then 1
       else 0) =
      (reapOneStep (submitStep ReapInit 1 0) 1 0).submits.count 1 :=
  (c2_exactly_one_completion _
    (Relation.ReflTransGen.tail
      (Relation.ReflTransGen.single (ReapStep.submit ReapInit 1 0 (by decide)))
      (ReapStep.reapOne _ 1 0 rfl (by decide)))).1 1

/-- Counterexample to C1 as stated: submit URB 1 successfully, then call
Close.  The post-Close state is reachable and closed, yet the pending-URB
map still holds URB 1, the reaper is still running, and no completion
callback (device-gone or otherwise) has been delivered — Close does not
block on the drain. -/
theorem c1_counterexample :
    ReapReachable
        { closed := true, reaping := true, reapMap := [1], events := [],
          submits := [1] } ∧
      ({ closed := true, reaping := true, reapMap := [1], events := [],
          submits := [1] } : ReapState).closed = true ∧
      ({ closed := true, reaping := true, reapMap := [1], events := [],
          submits := [1] } : ReapState).reapMap ≠ [] ∧
      ({ closed := true, reaping := true, reapMap := [1], events := [],
          submits := [1] } : ReapState).reaping = true ∧
      ({ closed := true, reaping := true, reapMap := [1], events := [],
          submits := [1] } : ReapState).events = [] := by
  refine ⟨?_, rfl, by decide, rfl, rfl⟩
  exact Relation.ReflTransGen.tail
    (Relation.ReflTransGen.single (ReapStep.submit ReapInit 1 0 (by decide)))
    (ReapStep.close _)

/-- C1 (amended): Close only marks the handle closed; the drain is
performed by the reaper's next loop iteration.  In every reachable closed
state: if the reaper has already exited the pending map is empty; if the
reaper is still running, the closed-check transition is enabled and in one
step delivers a device-gone completion to every pending URB, empties the
map and stops the reaper; and every step from a closed state stays
closed. -/
theorem c1_close_drains (s : ReapState) (h : ReapReachable s)
    (hc : s.closed = true) :
    (s.reaping = false → s.reapMap = []) ∧
    (s.reaping = true →
      ReapStep s (drainStep s UrbRes.devGone) ∧
      (drainStep s UrbRes.devGone).reapMap = [] ∧
      (drainStep s UrbRes.devGone).reaping = false ∧
      ∀ u : Nat, u ∈ s.reapMap →
        (u, UrbRes.devGone) ∈ (drainStep s UrbRes.devGone).events) ∧
    (∀ s' : ReapState, ReapStep s s' → s'.closed = true) := by
  obtain ⟨hnd, hidle, hcnt⟩ := reapInv_reachable s h
  refine ⟨hidle, fun hr => ⟨ReapStep.reapClosed s hr hc, rfl, rfl,
    fun u hu => ?_⟩, fun s' hs => reapStep_closed s s' hs hc⟩
  simp only [drainStep, List.mem_append]
  exact Or.inl (List.mem_map.mpr ⟨u, hu, rfl⟩)

/-- Witness: the amended C1 drain property at the reachable closed state
with URB 1 pending. -/
theorem c1_witness :
    ReapStep (⟨true, true, [1], [], [1]⟩ : ReapState)
        (drainStep ⟨true, true, [1], [], [1]⟩ UrbRes.devGone) ∧
      (drainStep (⟨true, true, [1], [], [1]⟩ : ReapState)
          UrbRes.devGone).reapMap = [] ∧
      (drainStep (⟨true, true, [1], [], [1]⟩ : ReapState)
          UrbRes.devGone).reaping = false ∧
      (1, UrbRes.devGone) ∈
        (drainStep (⟨true, true, [1], [], [1]⟩ : ReapState)
          UrbRes.devGone).events :=
  have H := c1_close_drains ⟨true, true, [1], [], [1]⟩
    (Relation.ReflTransGen.tail
      (Relation.ReflTransGen.single (ReapStep.submit ReapInit 1 0 (by decide)))
      (ReapStep.close _)) rfl
  ⟨(H.2.1 rfl).1, (H.2.1 rfl).2.1, (H.2.1 rfl).2.2.1,
   (H.2.1 rfl).2.2.2 1 (by decide)⟩

end GoUsb
